import Mathlib

/-!
Verification of the two profile-switcher scripts of this repository:
`highdpi.py` (high-DPI display profile toggler) and `nvidia.py` (NVIDIA/intel
GPU switcher).  Strings are modelled as `List Char`; the filesystem is
modelled as a record of `Option (List Char)` fields, one per managed path;
external command invocations are modelled by an oracle mapping an argument
vector to `none` (success) or `some code` (a `CalledProcessError` with that
return code).  Each Python function is translated into a Lean definition of
the same name (modulo casing), and the claims are settled as theorems below.
-/

/-! ## Generic string helpers (Python semantics on `List Char`) -/

/-- Python's substring test `pat in l` for strings. -/
def containsSub (pat : List Char) : List Char → Bool
  | [] => pat.isEmpty
  | c :: tl => pat.isPrefixOf (c :: tl) || containsSub pat tl

/-- Number of positions of `l` at which `pat` occurs as a substring
(counts possibly-overlapping occurrences, one per start position). -/
def countOccur (pat : List Char) : List Char → Nat
  | [] => 0
  | c :: tl => (if pat.isPrefixOf (c :: tl) then 1 else 0) + countOccur pat tl

/-- Python's `file.readlines()` line splitting: split after every newline,
keeping the newline characters, with no empty trailing element. -/
def splitLines : List Char → List (List Char)
  | [] => []
  | c :: cs =>
    if c = '\n' then ['\n'] :: splitLines cs
    else
      match splitLines cs with
      | [] => [[c]]
      | l :: ls => (c :: l) :: ls

/-- Concatenation of a list of lines back into file content. -/
def joinL : List (List Char) → List Char
  | [] => []
  | l :: ls => l ++ joinL ls

/-- Strip one trailing newline from a line, when present. -/
def stripNL (l : List Char) : List Char :=
  if l.getLast? = some '\n' then l.dropLast else l

/-- Python's `str.splitlines()` (newline-only model): the lines of `s`
without their terminating newline characters. -/
def pyLines (s : List Char) : List (List Char) :=
  (splitLines s).map stripNL

/-- Python's `str.split(sep)` for a single-character separator: keeps empty
fields, and returns `[""]` on the empty string. -/
def splitOnChar (sep : Char) : List Char → List (List Char)
  | [] => [[]]
  | c :: cs =>
    if c = sep then [] :: splitOnChar sep cs
    else
      match splitOnChar sep cs with
      | [] => [[c]]
      | l :: ls => (c :: l) :: ls

/-- Whitespace as used by Python's argument-less `str.split()` (the
characters that occur in the modelled inputs). -/
def isSpacePy (c : Char) : Bool := c = ' ' || c = '\t'

/-- Value of one hexadecimal digit, handling both letter cases. -/
def hexDigitVal (c : Char) : Option Nat :=
  if '0' ≤ c ∧ c ≤ '9' then some (c.toNat - '0'.toNat)
  else if 'a' ≤ c ∧ c ≤ 'f' then some (c.toNat - 'a'.toNat + 10)
  else if 'A' ≤ c ∧ c ≤ 'F' then some (c.toNat - 'A'.toNat + 10)
  else none

/-- Value of one decimal digit. -/
def decDigitVal (c : Char) : Option Nat :=
  if '0' ≤ c ∧ c ≤ '9' then some (c.toNat - '0'.toNat) else none

/-- Accumulating core of `int(s, 16)`. -/
def parseHexGo (acc : Nat) : List Char → Option Nat
  | [] => some acc
  | c :: cs =>
    match hexDigitVal c with
    | some v => parseHexGo (16 * acc + v) cs
    | none => none

/-- Python's `int(s, 16)` on a plain string of hexadecimal digits;
`none` models the `ValueError` raised on any other input. -/
def parseHex (l : List Char) : Option Nat :=
  if l.isEmpty then none else parseHexGo 0 l

/-- Accumulating core of `int(s)`. -/
def parseDecGo (acc : Nat) : List Char → Option Nat
  | [] => some acc
  | c :: cs =>
    match decDigitVal c with
    | some v => parseDecGo (10 * acc + v) cs
    | none => none

/-- Python's `int(s)` on a plain string of decimal digits;
`none` models the `ValueError` raised on any other input. -/
def parseDec (l : List Char) : Option Nat :=
  if l.isEmpty then none else parseDecGo 0 l

/-- Decimal rendering of a natural number, as in a Python f-string. -/
def natToDec (n : Nat) : List Char := Nat.toDigits 10 n

/-- Python's `str.lower()` restricted to ASCII letters. -/
def pyLower (l : List Char) : List Char :=
  l.map fun c => if 'A' ≤ c ∧ c ≤ 'Z' then Char.ofNat (c.toNat + 32) else c

/-! ## The `re.sub(r"size = \d+\.\d+", repl, content)` substitution

`matchSize l` decides whether the regex matches a prefix of `l` (the regex
has no alternation or optional parts, so the Python backtracking match is
exactly the greedy one), returning the remainder after the match.
`subSize repl l` is the full leftmost, non-overlapping `re.sub`. -/

/-- The literal prefix `size = ` of the font-size pattern. -/
def sizePat : List Char := ['s', 'i', 'z', 'e', ' ', '=', ' ']

/-- Match the regex `size = \d+\.\d+` against a prefix of `l`; return the
remainder of `l` after the (greedy) match. -/
def matchSize (l : List Char) : Option (List Char) :=
  if sizePat.isPrefixOf l then
    let t := l.drop 7
    let d1 := t.takeWhile Char.isDigit
    let r1 := t.dropWhile Char.isDigit
    if d1.isEmpty then none
    else
      match r1 with
      | '.' :: r2 =>
        let d2 := r2.takeWhile Char.isDigit
        let r3 := r2.dropWhile Char.isDigit
        if d2.isEmpty then none else some r3
      | _ => none
  else none

/-- Fuel-indexed worker for the substitution (structural recursion on the
fuel so that concrete instances reduce by `rfl`/`decide`). -/
def subSizeGo (repl : List Char) : Nat → List Char → List Char
  | 0, l => l
  | n + 1, l =>
    match matchSize l with
    | some rest => repl ++ subSizeGo repl n rest
    | none =>
      match l with
      | [] => []
      | c :: cs => c :: subSizeGo repl n cs

/-- `re.sub(r"size = \d+\.\d+", repl, l)`: replace every leftmost,
non-overlapping match by `repl`. -/
def subSize (repl l : List Char) : List Char := subSizeGo repl l.length l

/-! ## Model of `highdpi.py` (Tool A) -/

/-- The marker line content `export QT_SCALE_FACTOR=2` (without newline). -/
def qtMarker : List Char := "export QT_SCALE_FACTOR=2".toList

/-- Replacement string of the high-DPI Alacritty patch. -/
def repl24 : List Char := "size = 24.0".toList

/-- Replacement string of the normal-mode Alacritty patch. -/
def repl14 : List Char := "size = 14.0".toList

/-- `["xfconf-query", "-c", "xsettings", "-p", "/Gdk/WindowScalingFactor", "-s", "2"]` -/
def xfScale2 : List (List Char) :=
  ["xfconf-query".toList, "-c".toList, "xsettings".toList, "-p".toList,
   "/Gdk/WindowScalingFactor".toList, "-s".toList, "2".toList]

/-- xfwm4 theme command of the high-DPI branch. -/
def xfThemeX : List (List Char) :=
  ["xfconf-query".toList, "-c".toList, "xfwm4".toList, "-p".toList,
   "/general/theme".toList, "-s".toList, "Default-xhdpi".toList]

/-- Cursor-size command of the high-DPI branch. -/
def xfCursor42 : List (List Char) :=
  ["xfconf-query".toList, "-c".toList, "xsettings".toList, "-p".toList,
   "/Gtk/CursorThemeSize".toList, "-s".toList, "42".toList]

/-- Font-DPI command of the high-DPI branch. -/
def xfDpi95 : List (List Char) :=
  ["xfconf-query".toList, "-c".toList, "xsettings".toList, "-p".toList,
   "/Xft/DPI".toList, "-s".toList, "95".toList]

/-- Scaling-factor reset command of the normal branch. -/
def xfScale1 : List (List Char) :=
  ["xfconf-query".toList, "-c".toList, "xsettings".toList, "-p".toList,
   "/Gdk/WindowScalingFactor".toList, "-s".toList, "1".toList]

/-- Theme reset command of the normal branch. -/
def xfThemeN : List (List Char) :=
  ["xfconf-query".toList, "-c".toList, "xfwm4".toList, "-p".toList,
   "/general/theme".toList, "-s".toList, "Default".toList]

/-- Cursor-size reset command of the normal branch. -/
def xfCursor24 : List (List Char) :=
  ["xfconf-query".toList, "-c".toList, "xsettings".toList, "-p".toList,
   "/Gtk/CursorThemeSize".toList, "-s".toList, "24".toList]

/-- Font-DPI reset command of the normal branch. -/
def xfDpi96 : List (List Char) :=
  ["xfconf-query".toList, "-c".toList, "xsettings".toList, "-p".toList,
   "/Xft/DPI".toList, "-s".toList, "96".toList]

/-- The files managed by `highdpi.py`: `~/.xsessionrc` and the Alacritty
config.  `none` models a non-existing file. -/
structure DpiFS where
  xsessionrc : Option (List Char)
  alacritty : Option (List Char)
deriving DecidableEq

/-- One constructor per `print` statement of `highdpi.py`, carrying the
interpolated data where the printed text depends on it. -/
inductive DpiMsg where
  | usage
  | invalidMode (mode : List Char)
  | enabling
  | reverting
  | cmdFailed (cmd : List (List Char)) (code : Nat)
  | addingQt
  | alreadySet
  | removingQt
  | notFoundQt
  | settingAlacritty24
  | settingAlacritty14
  | alacrittyNotFound
  | doneHigh
  | doneNormal
deriving DecidableEq

/-- Result of one run of `highdpi.py`: final file state, printed messages in
order, external commands invoked in order, and the process exit status. -/
structure DpiResult where
  fs : DpiFS
  msgs : List DpiMsg
  cmds : List (List (List Char))
  exitCode : Nat
deriving DecidableEq

/-- Messages produced by `run_cmd` in `highdpi.py`: a failed command is
logged (with the triggering command and the exception's return code) and
execution continues. -/
def runCmdMsgs (oracle : List (List Char) → Option Nat) (cmd : List (List Char)) : List DpiMsg :=
  match oracle cmd with
  | some code => [DpiMsg.cmdFailed cmd code]
  | none => []

/-- The `.xsessionrc` update of the `highdpi` branch (lines 40-53): append
the marker (preceded and followed by a newline) only when the marker
substring is absent; create the file when missing. -/
def xsessionHighdpi (x : Option (List Char)) : Option (List Char) × List DpiMsg :=
  match x with
  | some content =>
    if containsSub qtMarker content then (some content, [DpiMsg.alreadySet])
    else (some (content ++ '\n' :: (qtMarker ++ ['\n'])), [DpiMsg.addingQt])
  | none => (some (qtMarker ++ ['\n']), [])

/-- The `.xsessionrc` update of the `normal` branch (lines 82-98): rewrite
the file keeping only the lines that do not contain the marker substring,
and report whether any line was dropped. -/
def xsessionNormal (x : Option (List Char)) : Option (List Char) × List DpiMsg :=
  match x with
  | some content =>
    let ls := splitLines content
    let kept := ls.filter fun l => !containsSub qtMarker l
    let found := ls.any fun l => containsSub qtMarker l
    (some (joinL kept), [if found then DpiMsg.removingQt else DpiMsg.notFoundQt])
  | none => (none, [])

/-- The Alacritty font-size patch: `re.sub(r"size = \d+\.\d+", repl, ...)`
applied when the config exists, otherwise only a report. -/
def alacrittyPatch (repl : List Char) (okMsg : DpiMsg) (a : Option (List Char)) :
    Option (List Char) × List DpiMsg :=
  match a with
  | some content => (some (subSize repl content), [okMsg])
  | none => (none, [DpiMsg.alacrittyNotFound])

/-- The `highdpi` branch of `highdpi.py` (lines 30-69). -/
def applyHighdpiMode (oracle : List (List Char) → Option Nat) (fs : DpiFS) : DpiResult :=
  let x := xsessionHighdpi fs.xsessionrc
  let a := alacrittyPatch repl24 DpiMsg.settingAlacritty24 fs.alacritty
  { fs := { xsessionrc := x.1, alacritty := a.1 }
    msgs := DpiMsg.enabling :: (runCmdMsgs oracle xfScale2 ++ runCmdMsgs oracle xfThemeX ++
      runCmdMsgs oracle xfCursor42 ++ runCmdMsgs oracle xfDpi95 ++
      x.2 ++ a.2 ++ [DpiMsg.doneHigh])
    cmds := [xfScale2, xfThemeX, xfCursor42, xfDpi95]
    exitCode := 0 }

/-- The `normal` branch of `highdpi.py` (lines 72-113). -/
def applyNormalMode (oracle : List (List Char) → Option Nat) (fs : DpiFS) : DpiResult :=
  let x := xsessionNormal fs.xsessionrc
  let a := alacrittyPatch repl14 DpiMsg.settingAlacritty14 fs.alacritty
  { fs := { xsessionrc := x.1, alacritty := a.1 }
    msgs := DpiMsg.reverting :: (runCmdMsgs oracle xfScale1 ++ runCmdMsgs oracle xfThemeN ++
      runCmdMsgs oracle xfCursor24 ++ runCmdMsgs oracle xfDpi96 ++
      x.2 ++ a.2 ++ [DpiMsg.doneNormal])
    cmds := [xfScale1, xfThemeN, xfCursor24, xfDpi96]
    exitCode := 0 }

/-- Top level of `highdpi.py`: argument check (exit 1 with usage on a wrong
argument count or an invalid mode), then the selected branch (exit 0). -/
def highdpiMain (argv : List (List Char)) (oracle : List (List Char) → Option Nat)
    (fs : DpiFS) : DpiResult :=
  if argv.length ≠ 2 then
    { fs := fs, msgs := [DpiMsg.usage], cmds := [], exitCode := 1 }
  else
    let mode := argv.getD 1 []
    if mode = "highdpi".toList then applyHighdpiMode oracle fs
    else if mode = "normal".toList then applyNormalMode oracle fs
    else { fs := fs, msgs := [DpiMsg.invalidMode mode], cmds := [], exitCode := 1 }

/-! ## Model of `nvidia.py` (Tool B) -/

/-- Part of `NVIDIA_CONFIG_TEMPLATE` before the `{busid}` placeholder. -/
def nvidiaTemplatePre : List Char :=
  ("Section \"OutputClass\"\n    Identifier \"nvidia\"\n    MatchDriver \"nvidia-drm\"\n    Driver \"nvidia\"\nEndSection\n\nSection \"ServerLayout\"\n    Identifier \"layout\"\n    Screen 0 \"nvidia\"\n    Inactive \"intel\"\nEndSection\n\nSection \"Device\"\n    Identifier \"nvidia\"\n    Driver \"nvidia\"\n    BusID \"").toList

/-- Part of `NVIDIA_CONFIG_TEMPLATE` after the `{busid}` placeholder. -/
def nvidiaTemplatePost : List Char :=
  ("\"\n    Option \"ForceCompositionPipeline\" \"on\"\nEndSection\n\nSection \"Screen\"\n    Identifier \"nvidia\"\n    Device \"nvidia\"\n    Option \"AllowEmptyInitialConfiguration\"\nEndSection\n\nSection \"Device\"\n    Identifier \"intel\"\n    Driver \"modesetting\"\nEndSection\n\nSection \"Screen\"\n    Identifier \"intel\"\n    Device \"intel\"\nEndSection\n").toList

/-- `NVIDIA_CONFIG_TEMPLATE.format(busid=busid)`. -/
def nvidiaConfigOf (busid : List Char) : List Char :=
  nvidiaTemplatePre ++ busid ++ nvidiaTemplatePost

/-- `UDEV_RULES_CONTENT`: the device-removal rule set written for the
power-down sub-option. -/
def udevRulesContent : List Char :=
  ("# Remove NVIDIA USB xHCI Host Controller devices, if present\nACTION==\"add\", SUBSYSTEM==\"pci\", ATTR{vendor}==\"0x10de\", ATTR{class}==\"0x0c0330\", ATTR{power/control}=\"auto\", ATTR{remove}=\"1\"\n\n# Remove NVIDIA USB Type-C UCSI devices, if present\nACTION==\"add\", SUBSYSTEM==\"pci\", ATTR{vendor}==\"0x10de\", ATTR{class}==\"0x0c8000\", ATTR{power/control}=\"auto\", ATTR{remove}=\"1\"\n\n# Remove NVIDIA Audio devices, if present\nACTION==\"add\", SUBSYSTEM==\"pci\", ATTR{vendor}==\"0x10de\", ATTR{class}==\"0x040300\", ATTR{power/control}=\"auto\", ATTR{remove}=\"1\"\n\n# Remove NVIDIA VGA/3D controller devices\nACTION==\"add\", SUBSYSTEM==\"pci\", ATTR{vendor}==\"0x10de\", ATTR{class}==\"0x03[0-9]*\", ATTR{power/control}=\"auto\", ATTR{remove}=\"1\"\n").toList

/-- `LIGHTDM_SETUP_SCRIPT`. -/
def lightdmSetupScript : List Char :=
  "#!/bin/sh\nxrandr --setprovideroutputsource modesetting NVIDIA-0\nxrandr --auto\n".toList

/-- `LIGHTDM_NVIDIA_CONFIG`. -/
def lightdmNvidiaConfig : List Char :=
  "[Seat:*]\ndisplay-setup-script=/etc/lightdm/nvidia.sh\n".toList

/-- The `udevadm control --reload-rules` argument vector. -/
def udevadmReloadCmd : List (List Char) :=
  ["udevadm".toList, "control".toList, "--reload-rules".toList]

/-- The `lspci -nn` argument vector. -/
def lspciCmd : List (List Char) := ["lspci".toList, "-nn".toList]

/-- The files managed by `nvidia.py`; `none` models a non-existing file. -/
structure NvFS where
  nvidiaConf : Option (List Char)
  lightdmSetup : Option (List Char)
  lightdmConf : Option (List Char)
  stateFile : Option (List Char)
  udevRules : Option (List Char)
deriving DecidableEq

/-- One constructor per `print` (or consecutive group of prints) of
`nvidia.py`, carrying interpolated data where relevant. -/
inductive NvMsg where
  | statusReport (mode : Bool) (powerDown : Bool)
  | usage
  | rootError
  | unknownCommand (cmd : List Char)
  | switchingNvidia
  | removedUdevRules
  | reloadedUdev
  | cmdFailed (cmd : List (List Char)) (code : Nat)
  | warnNoBusid
  | errNoBusid
  | detectedBusid (busid : List Char)
  | createdNvidiaConf
  | createdLightdmSetup
  | createdLightdmConf
  | switchedToNvidia
  | switchingIntel
  | removedNvidiaConf
  | alreadyIntegrated
  | removedLightdmSetup
  | removedLightdmConf
  | createdUdevRules
  | powerDownNote
  | switchedToIntel
  | powerDownEnabled
  | restartNote
deriving DecidableEq

/-- Result of one run of `nvidia.py` (same shape as `DpiResult`). -/
structure NvResult where
  fs : NvFS
  msgs : List NvMsg
  cmds : List (List (List Char))
  exitCode : Nat
deriving DecidableEq

/-- Messages produced by `run_cmd` in `nvidia.py`. -/
def nvRunCmdMsgs (oracle : List (List Char) → Option Nat) (cmd : List (List Char)) : List NvMsg :=
  match oracle cmd with
  | some code => [NvMsg.cmdFailed cmd code]
  | none => []

/-- The NVIDIA VGA/3D line predicate of `get_nvidia_busid`:
`"NVIDIA" in line and ("VGA" in line or "3D" in line)`. -/
def nvidiaLinePred (l : List Char) : Bool :=
  containsSub "NVIDIA".toList l &&
    (containsSub "VGA".toList l || containsSub "3D".toList l)

/-- Parse the first whitespace-separated token of a matching `lspci` line
into the X.org BusID form `PCI:<bus>:<device>:<function>` with bus and
device read as hexadecimal and the function read as decimal; `none` models
the `IndexError`/`ValueError` cases. -/
def parseBusId (line : List Char) : Option (List Char) :=
  let tok := (line.dropWhile isSpacePy).takeWhile fun c => !isSpacePy c
  if tok.isEmpty then none
  else
    match splitOnChar ':' (tok.map fun c => if c = '.' then ':' else c) with
    | p0 :: p1 :: p2 :: _ =>
      match parseHex p0, parseHex p1, parseDec p2 with
      | some b, some d, some f =>
        some ("PCI:".toList ++ natToDec b ++ ':' :: (natToDec d ++ ':' :: natToDec f))
      | _, _, _ => none
    | _ => none

/-- `get_nvidia_busid()`: `lspci = none` models a `CalledProcessError` from
`lspci -nn`; otherwise scan the output lines for the first NVIDIA VGA/3D
line and parse its PCI address.  The second component records whether the
`except` branch printed its warning (exceptions abort the whole scan). -/
def get_nvidia_busid (lspci : Option (List Char)) : Option (List Char) × Bool :=
  match lspci with
  | none => (none, true)
  | some out =>
    match (pyLines out).find? nvidiaLinePred with
    | none => (none, false)
    | some line =>
      match parseBusId line with
      | none => (none, true)
      | some b => (some b, false)

/-- `switch_to_nvidia()`: remove the power-down udev rules first (reloading
udev rules), then detect the BusID — exiting 1 without touching the X.org
config when detection fails — then write the four files. -/
def switch_to_nvidia (oracle : List (List Char) → Option Nat) (lspci : Option (List Char))
    (fs : NvFS) : NvResult :=
  let udevPresent := fs.udevRules.isSome
  let fs1 : NvFS := if udevPresent then { fs with udevRules := none } else fs
  let msgs1 := NvMsg.switchingNvidia ::
    (if udevPresent then
      NvMsg.removedUdevRules :: (nvRunCmdMsgs oracle udevadmReloadCmd ++ [NvMsg.reloadedUdev])
    else [])
  let cmds1 := if udevPresent then [udevadmReloadCmd] else []
  let det := get_nvidia_busid lspci
  let msgs2 := msgs1 ++ (if det.2 then [NvMsg.warnNoBusid] else [])
  let cmds2 := cmds1 ++ [lspciCmd]
  match det.1 with
  | none =>
    { fs := fs1, msgs := msgs2 ++ [NvMsg.errNoBusid], cmds := cmds2, exitCode := 1 }
  | some busid =>
    { fs := { fs1 with
              nvidiaConf := some (nvidiaConfigOf busid),
              lightdmSetup := some lightdmSetupScript,
              lightdmConf := some lightdmNvidiaConfig,
              stateFile := some "nvidia".toList }
      msgs := msgs2 ++ [NvMsg.detectedBusid busid, NvMsg.createdNvidiaConf,
        NvMsg.createdLightdmSetup, NvMsg.createdLightdmConf, NvMsg.switchedToNvidia,
        NvMsg.restartNote]
      cmds := cmds2
      exitCode := 0 }

/-- `switch_to_intel(power_down)`: delete the NVIDIA X.org config and the
LightDM files; install the udev power-down rules when the option is set,
otherwise remove them; finally write the advisory state file. -/
def switch_to_intel (oracle : List (List Char) → Option Nat) (power_down : Bool)
    (fs : NvFS) : NvResult :=
  let m1 := if fs.nvidiaConf.isSome then [NvMsg.removedNvidiaConf] else [NvMsg.alreadyIntegrated]
  let m2 := if fs.lightdmSetup.isSome then [NvMsg.removedLightdmSetup] else []
  let m3 := if fs.lightdmConf.isSome then [NvMsg.removedLightdmConf] else []
  let udev : Option (List Char) := if power_down then some udevRulesContent else none
  let m4 := if power_down then
      NvMsg.createdUdevRules ::
        (nvRunCmdMsgs oracle udevadmReloadCmd ++ [NvMsg.reloadedUdev, NvMsg.powerDownNote])
    else if fs.udevRules.isSome then
      NvMsg.removedUdevRules :: nvRunCmdMsgs oracle udevadmReloadCmd
    else []
  let c4 := if power_down then [udevadmReloadCmd]
    else if fs.udevRules.isSome then [udevadmReloadCmd] else []
  { fs := { nvidiaConf := none,
            lightdmSetup := none,
            lightdmConf := none,
            stateFile := some (if power_down then "intel-powerdown".toList else "intel".toList),
            udevRules := udev }
    msgs := NvMsg.switchingIntel :: (m1 ++ m2 ++ m3 ++ m4 ++ [NvMsg.switchedToIntel] ++
      (if power_down then [NvMsg.powerDownEnabled] else []) ++ [NvMsg.restartNote])
    cmds := c4
    exitCode := 0 }

/-- `show_status()`: a pure read of the marker files. -/
def show_status (fs : NvFS) : NvMsg :=
  NvMsg.statusReport fs.nvidiaConf.isSome fs.udevRules.isSome

/-- `main()` of `nvidia.py`: no argument prints status and usage (exit 0);
`status` needs no privilege (exit 0); every other command first passes
`check_root` (exit 1 when `euid ≠ 0`, before any mutation), then dispatches
to the switchers; an unknown command exits 1. -/
def nvMain (argv : List (List Char)) (euid : Nat) (oracle : List (List Char) → Option Nat)
    (lspci : Option (List Char)) (fs : NvFS) : NvResult :=
  if argv.length < 2 then
    { fs := fs, msgs := [show_status fs, NvMsg.usage], cmds := [], exitCode := 0 }
  else
    let command := pyLower (argv.getD 1 [])
    let power_down := argv.contains "--powerdown".toList || argv.contains "-p".toList
    if command = "status".toList then
      { fs := fs, msgs := [show_status fs], cmds := [], exitCode := 0 }
    else if euid ≠ 0 then
      { fs := fs, msgs := [NvMsg.rootError], cmds := [], exitCode := 1 }
    else if command = "nvidia".toList then switch_to_nvidia oracle lspci fs
    else if command = "intel".toList then switch_to_intel oracle power_down fs
    else if command = "toggle".toList then
      if fs.nvidiaConf.isSome then switch_to_intel oracle power_down fs
      else switch_to_nvidia oracle lspci fs
    else
      { fs := fs, msgs := [NvMsg.unknownCommand command], cmds := [], exitCode := 1 }

/-! ## Lemmas about `matchSize` -/

lemma head?_dropWhile_not (p : Char → Bool) :
    ∀ (l : List Char) (c : Char), (l.dropWhile p).head? = some c → p c = false := by
  intro l
  induction l with
  | nil => intro c h; simp [List.dropWhile] at h
  | cons a tl ih =>
    intro c h
    by_cases hp : p a
    · rw [List.dropWhile_cons_of_pos hp] at h
      exact ih c h
    · rw [List.dropWhile_cons_of_neg hp] at h
      simp only [List.head?_cons, Option.some.injEq] at h
      subst h
      simpa using hp

lemma takeWhile_append_all (p : Char → Bool) :
    ∀ (x y : List Char), (∀ c ∈ x, p c = true) →
      (x ++ y).takeWhile p = x ++ y.takeWhile p := by
  intro x
  induction x with
  | nil => simp
  | cons a tl ih =>
    intro y hall
    have ha : p a = true := hall a (by simp)
    simp only [List.cons_append, List.takeWhile_cons, ha, if_true]
    rw [ih y fun c hc => hall c (by simp [hc])]

lemma dropWhile_append_all (p : Char → Bool) :
    ∀ (x y : List Char), (∀ c ∈ x, p c = true) →
      (x ++ y).dropWhile p = y.dropWhile p := by
  intro x
  induction x with
  | nil => simp
  | cons a tl ih =>
    intro y hall
    have ha : p a = true := hall a (by simp)
    simp only [List.cons_append, List.dropWhile_cons, ha, if_true]
    exact ih y fun c hc => hall c (by simp [hc])

lemma matchSize_nil : matchSize [] = none := rfl

/-- Computation of `matchSize` on input of the shape
`size = <d1>.<d2><r>` with `d1`, `d2` nonempty digit runs. -/
lemma matchSize_shape_eval {d1 d2 r : List Char}
    (h1 : d1 ≠ []) (h2 : d2 ≠ [])
    (hd1 : ∀ c ∈ d1, c.isDigit = true) (hd2 : ∀ c ∈ d2, c.isDigit = true) :
    matchSize (sizePat ++ (d1 ++ '.' :: (d2 ++ r))) = some (r.dropWhile Char.isDigit) := by
  have hpre : sizePat.isPrefixOf (sizePat ++ (d1 ++ '.' :: (d2 ++ r))) = true := by
    rw [List.isPrefixOf_iff_prefix]
    exact List.prefix_append _ _
  have hdrop : (sizePat ++ (d1 ++ '.' :: (d2 ++ r))).drop 7 = d1 ++ '.' :: (d2 ++ r) := by
    have h7 : (7 : Nat) = sizePat.length := rfl
    rw [h7, List.drop_left]
  have htake : (d1 ++ '.' :: (d2 ++ r)).takeWhile Char.isDigit = d1 := by
    rw [takeWhile_append_all Char.isDigit d1 _ hd1]
    simp [List.takeWhile_cons]
  have hdrop2 : (d1 ++ '.' :: (d2 ++ r)).dropWhile Char.isDigit = '.' :: (d2 ++ r) := by
    rw [dropWhile_append_all Char.isDigit d1 _ hd1]
    simp [List.dropWhile_cons]
  have htake2 : (d2 ++ r).takeWhile Char.isDigit = d2 ++ r.takeWhile Char.isDigit :=
    takeWhile_append_all Char.isDigit d2 r hd2
  have hdrop3 : (d2 ++ r).dropWhile Char.isDigit = r.dropWhile Char.isDigit :=
    dropWhile_append_all Char.isDigit d2 r hd2
  unfold matchSize
  rw [if_pos hpre, hdrop]
  simp only [htake, hdrop2, htake2, hdrop3]
  rw [if_neg (by simpa [List.isEmpty_iff] using h1)]
  rw [if_neg (by simp [List.isEmpty_iff, h2])]

/-- Exact computation when the remainder does not begin with a digit. -/
lemma matchSize_exact {d1 d2 r : List Char}
    (h1 : d1 ≠ []) (h2 : d2 ≠ [])
    (hd1 : ∀ c ∈ d1, c.isDigit = true) (hd2 : ∀ c ∈ d2, c.isDigit = true)
    (hr : ∀ c, r.head? = some c → c.isDigit = false) :
    matchSize (sizePat ++ (d1 ++ '.' :: (d2 ++ r))) = some r := by
  rw [matchSize_shape_eval h1 h2 hd1 hd2]
  congr 1
  cases r with
  | nil => rfl
  | cons a tl =>
    rw [List.dropWhile_cons_of_neg]
    rw [hr a (by simp)]
    simp

/-- Any successful `matchSize` exposes the matched shape. -/
lemma matchSize_shape {l rest : List Char} (h : matchSize l = some rest) :
    ∃ d1 d2 : List Char, d1 ≠ [] ∧ d2 ≠ [] ∧ (∀ c ∈ d1, c.isDigit = true) ∧
      (∀ c ∈ d2, c.isDigit = true) ∧ l = sizePat ++ (d1 ++ '.' :: (d2 ++ rest)) ∧
      (∀ c, rest.head? = some c → c.isDigit = false) := by
  unfold matchSize at h
  split at h
  case isFalse => exact absurd h (by simp)
  case isTrue hpre =>
    simp only at h
    rw [List.isPrefixOf_iff_prefix] at hpre
    obtain ⟨t, ht⟩ := hpre
    have hdrop : l.drop 7 = t := by
      rw [← ht]
      have h7 : (7 : Nat) = sizePat.length := rfl
      rw [h7, List.drop_left]
    rw [hdrop] at h
    split at h
    case isTrue => exact absurd h (by simp)
    case isFalse hne =>
      split at h
      case h_2 => exact absurd h (by simp)
      case h_1 r2 heq =>
        split at h
        case isTrue => exact absurd h (by simp)
        case isFalse hne2 =>
          simp only [Option.some.injEq] at h
          refine ⟨t.takeWhile Char.isDigit, r2.takeWhile Char.isDigit,
            by simpa [List.isEmpty_iff] using hne, by simpa [List.isEmpty_iff] using hne2,
            fun c hc => List.mem_takeWhile_imp hc, fun c hc => List.mem_takeWhile_imp hc,
            ?_, ?_⟩
          · rw [← ht]
            congr 1
            nth_rewrite 1 [← List.takeWhile_append_dropWhile Char.isDigit t]
            rw [heq]
            congr 2
            nth_rewrite 1 [← List.takeWhile_append_dropWhile Char.isDigit r2]
            rw [h]
          · rw [← h]
            exact head?_dropWhile_not Char.isDigit r2

/-! ## Unfolding equations for `subSize` -/

lemma matchSize_lt {l rest : List Char} (h : matchSize l = some rest) :
    rest.length < l.length := by
  obtain ⟨d1, d2, h1, _, _, _, hl, _⟩ := matchSize_shape h
  have : 0 < d1.length := List.length_pos.mpr h1
  rw [hl]
  simp only [List.length_append, List.length_cons, sizePat]
  omega

lemma subSizeGo_nilArg (repl : List Char) (n : Nat) : subSizeGo repl n [] = [] := by
  cases n with
  | zero => rfl
  | succ n => rfl

lemma subSizeGo_fuel (repl : List Char) :
    ∀ (n m : Nat) (l : List Char), l.length ≤ n → l.length ≤ m →
      subSizeGo repl n l = subSizeGo repl m l := by
  intro n
  induction n with
  | zero =>
    intro m l hn _
    have : l = [] := List.length_eq_zero.mp (Nat.le_zero.mp hn)
    subst this
    rw [subSizeGo_nilArg, subSizeGo_nilArg]
  | succ n ih =>
    intro m l hn hm
    cases m with
    | zero =>
      have : l = [] := List.length_eq_zero.mp (Nat.le_zero.mp hm)
      subst this
      rw [subSizeGo_nilArg, subSizeGo_nilArg]
    | succ m =>
      cases hms : matchSize l with
      | some rest =>
        simp only [subSizeGo, hms]
        have hlt := matchSize_lt hms
        rw [ih m rest (by omega) (by omega)]
      | none =>
        cases l with
        | nil => rfl
        | cons c cs =>
          simp only [subSizeGo, hms]
          have hcs : cs.length ≤ n := by
            simp only [List.length_cons] at hn
            omega
          have hcs' : cs.length ≤ m := by
            simp only [List.length_cons] at hm
            omega
          rw [ih m cs hcs hcs']

lemma subSize_nilArg (repl : List Char) : subSize repl [] = [] := rfl

lemma subSize_eq_match {l rest : List Char} (repl : List Char) (h : matchSize l = some rest) :
    subSize repl l = repl ++ subSize repl rest := by
  unfold subSize
  have hlt := matchSize_lt h
  cases hL : l.length with
  | zero =>
    exfalso
    have : l = [] := List.length_eq_zero.mp hL
    subst this
    rw [matchSize_nil] at h
    exact absurd h (by simp)
  | succ n =>
    simp only [subSizeGo, h]
    rw [subSizeGo_fuel repl n rest.length rest (by omega) (by omega)]

lemma subSize_eq_cons {c : Char} {cs : List Char} (repl : List Char)
    (h : matchSize (c :: cs) = none) :
    subSize repl (c :: cs) = c :: subSize repl cs := by
  unfold subSize
  simp only [List.length_cons, subSizeGo, h]

/-! ## Idempotence of the substitution

The key structural facts: (1) the output of `subSize` decomposes as an
unchanged prefix followed by the replacement at the first match; (2) the
replacement `size = <e1>.<e2>` itself matches the pattern exactly, so a
second pass reproduces it; (3) a substitution in the tail can never create
a fresh match at an earlier position, since the replacement starts with the
letter `s`, which occurs nowhere after position 0 of a matched span. -/

lemma subSize_decomp (repl : List Char) :
    ∀ l : List Char, subSize repl l = l ∨
      ∃ u v rest, l = u ++ v ∧ matchSize v = some rest ∧
        subSize repl l = u ++ (repl ++ subSize repl rest) := by
  suffices h : ∀ (n : Nat) (l : List Char), l.length = n → subSize repl l = l ∨
      ∃ u v rest, l = u ++ v ∧ matchSize v = some rest ∧
        subSize repl l = u ++ (repl ++ subSize repl rest) by
    intro l
    exact h l.length l rfl
  intro n
  induction n using Nat.strong_induction_on with
  | _ n ih =>
    intro l hn
    subst hn
    cases hms : matchSize l with
    | some rest =>
      right
      exact ⟨[], l, rest, by simp, hms, by simpa using subSize_eq_match repl hms⟩
    | none =>
      cases l with
      | nil => left; rfl
      | cons c cs =>
        rcases ih cs.length (by simp) cs rfl with h | ⟨u, v, rest, hcs, hv, hsub⟩
        · left
          rw [subSize_eq_cons repl hms, h]
        · right
          refine ⟨c :: u, v, rest, by simp [hcs], hv, ?_⟩
          rw [subSize_eq_cons repl hms, hsub]
          simp

/-- No character after position 0 of a matched span is the letter `s`. -/
lemma mem_matched_tail_ne_s {d1 d2 : List Char}
    (hd1 : ∀ c ∈ d1, c.isDigit = true) (hd2 : ∀ c ∈ d2, c.isDigit = true) :
    ∀ x ∈ ['i', 'z', 'e', ' ', '=', ' '] ++ (d1 ++ '.' :: d2), x ≠ 's' := by
  intro x hx hxs
  subst hxs
  simp only [List.mem_append, List.mem_cons] at hx
  rcases hx with hx | hx | hx | hx
  · exact absurd hx (by decide)
  · exact absurd (hd1 's' hx) (by decide)
  · exact absurd hx (by decide)
  · exact absurd (hd2 's' hx) (by decide)

/-- A substitution inside `cs` cannot create a pattern match at the head of
`c :: cs` where there was none. -/
lemma matchSize_none_subSize (e1 e2 : List Char)
    (hd1 : ∀ c ∈ e1, c.isDigit = true) (hd2 : ∀ c ∈ e2, c.isDigit = true)
    {c : Char} {cs : List Char}
    (h : matchSize (c :: cs) = none) :
    matchSize (c :: subSize (sizePat ++ (e1 ++ '.' :: e2)) cs) = none := by
  set repl := sizePat ++ (e1 ++ '.' :: e2) with hrepldef
  cases hms : matchSize (c :: subSize repl cs) with
  | none => rfl
  | some r =>
    exfalso
    obtain ⟨d1, d2, hne1, hne2, hdig1, hdig2, hshape, _⟩ := matchSize_shape hms
    rcases subSize_decomp repl cs with hid | ⟨u, v, rest, hcs, hv, hsub⟩
    · rw [hid] at hshape
      rw [hshape, matchSize_shape_eval hne1 hne2 hdig1 hdig2] at h
      exact absurd h (by simp)
    · rw [hsub] at hshape
      -- hshape : c :: (u ++ (repl ++ w)) = sizePat ++ (d1 ++ '.' :: (d2 ++ r))
      have hshape' : c :: (u ++ (repl ++ subSize repl rest)) =
          's' :: ((['i', 'z', 'e', ' ', '=', ' '] ++ (d1 ++ '.' :: d2)) ++ r) := by
        rw [hshape]
        simp [sizePat]
      set Q : List Char := ['i', 'z', 'e', ' ', '=', ' '] ++ (d1 ++ '.' :: d2) with hQ
      have hc : c = 's' := (List.cons.injEq _ _ _ _).mp hshape' |>.1
      have htail : u ++ (repl ++ subSize repl rest) = Q ++ r :=
        (List.cons.injEq _ _ _ _).mp hshape' |>.2
      by_cases hlen : Q.length ≤ u.length
      · -- the whole matched span lies inside the unchanged prefix `u` of `cs`
        have hQpre : Q ++ r = u ++ (repl ++ subSize repl rest) := htail.symm
        have hQu : Q = u.take Q.length := by
          have h2 := congrArg (List.take Q.length) htail
          rw [List.take_append_of_le_length hlen] at h2
          rw [h2, List.take_left]
        have hu : u = Q ++ u.drop Q.length := by
          nth_rewrite 1 [← List.take_append_drop Q.length u]
          rw [← hQu]
        have hcsQ : c :: cs = sizePat ++ (d1 ++ '.' :: (d2 ++ (u.drop Q.length ++ v))) := by
          rw [hcs, hc, hu]
          simp [hQ, sizePat]
        rw [hcsQ, matchSize_shape_eval hne1 hne2 hdig1 hdig2] at h
        exact absurd h (by simp)
      · -- the matched span would have to cover the first character of the
        -- replacement, which is `s`; impossible after position 0
        push_neg at hlen
        have hulen : u.length < (u ++ (repl ++ subSize repl rest)).length := by
          simp [hrepldef, sizePat]
        have hleft : (u ++ (repl ++ subSize repl rest))[u.length] = 's' := by
          rw [List.getElem_append_right (Nat.le_refl u.length)]
          simp [hrepldef, sizePat]
        have hulen2 : u.length < (Q ++ r).length := by
          simp only [List.length_append]
          omega
        have hright : (Q ++ r)[u.length] = Q[u.length] :=
          List.getElem_append_left hlen
        have : Q[u.length] = 's' := by
          rw [← hright, ← hleft]
          congr 1
          exact htail.symm
        exact mem_matched_tail_ne_s hdig1 hdig2 _ (List.getElem_mem hlen) this

lemma head?_subSize_not_digit (repl : List Char) (hrepl : repl.head? = some 's')
    {r : List Char} (hr : ∀ c, r.head? = some c → c.isDigit = false) :
    ∀ c, (subSize repl r).head? = some c → c.isDigit = false := by
  intro c h
  cases hms : matchSize r with
  | some rest =>
    rw [subSize_eq_match repl hms] at h
    cases repl with
    | nil => simp at hrepl
    | cons a tl =>
      simp only [List.head?_cons, Option.some.injEq] at hrepl
      subst hrepl
      simp only [List.cons_append, List.head?_cons, Option.some.injEq] at h
      subst h
      decide
  | none =>
    cases r with
    | nil => rw [subSize_nilArg] at h; simp at h
    | cons a tl =>
      rw [subSize_eq_cons repl hms] at h
      simp only [List.head?_cons, Option.some.injEq] at h
      subst h
      exact hr a (by simp)

lemma matchSize_repl_append (e1 e2 : List Char) (he1 : e1 ≠ []) (he2 : e2 ≠ [])
    (hd1 : ∀ c ∈ e1, c.isDigit = true) (hd2 : ∀ c ∈ e2, c.isDigit = true)
    {t : List Char} (ht : ∀ c, t.head? = some c → c.isDigit = false) :
    matchSize ((sizePat ++ (e1 ++ '.' :: e2)) ++ t) = some t := by
  have hassoc : (sizePat ++ (e1 ++ '.' :: e2)) ++ t = sizePat ++ (e1 ++ '.' :: (e2 ++ t)) := by
    simp
  rw [hassoc]
  exact matchSize_exact he1 he2 hd1 hd2 ht

/-- The substitution is idempotent: a second pass over the output of
`subSize` changes nothing (for a replacement of the shape
`size = <e1>.<e2>` that the pattern itself matches). -/
lemma subSize_idem (e1 e2 : List Char) (he1 : e1 ≠ []) (he2 : e2 ≠ [])
    (hd1 : ∀ c ∈ e1, c.isDigit = true) (hd2 : ∀ c ∈ e2, c.isDigit = true) :
    ∀ l : List Char,
      subSize (sizePat ++ (e1 ++ '.' :: e2)) (subSize (sizePat ++ (e1 ++ '.' :: e2)) l) =
        subSize (sizePat ++ (e1 ++ '.' :: e2)) l := by
  suffices h : ∀ (n : Nat) (l : List Char), l.length = n →
      subSize (sizePat ++ (e1 ++ '.' :: e2)) (subSize (sizePat ++ (e1 ++ '.' :: e2)) l) =
        subSize (sizePat ++ (e1 ++ '.' :: e2)) l by
    intro l
    exact h l.length l rfl
  intro n
  induction n using Nat.strong_induction_on with
  | _ n ih =>
    intro l hn
    subst hn
    set repl := sizePat ++ (e1 ++ '.' :: e2) with hrepldef
    cases hms : matchSize l with
    | some rest =>
      rw [subSize_eq_match repl hms]
      obtain ⟨d1, d2, _, _, _, _, _, hrest⟩ := matchSize_shape hms
      have hw : ∀ c, (subSize repl rest).head? = some c → c.isDigit = false :=
        head?_subSize_not_digit repl (by simp [hrepldef, sizePat]) hrest
      rw [subSize_eq_match repl (matchSize_repl_append e1 e2 he1 he2 hd1 hd2 hw)]
      rw [ih rest.length (matchSize_lt hms) rest rfl]
    | none =>
      cases l with
      | nil => rw [subSize_nilArg, subSize_nilArg]
      | cons c cs =>
        rw [subSize_eq_cons repl hms]
        rw [subSize_eq_cons repl (matchSize_none_subSize e1 e2 hd1 hd2 hms)]
        rw [ih cs.length (by simp) cs rfl]

/-! ## Instantiated idempotence, and substring lemmas -/

lemma repl24_eq : repl24 = sizePat ++ (['2', '4'] ++ '.' :: ['0']) := by decide

lemma repl14_eq : repl14 = sizePat ++ (['1', '4'] ++ '.' :: ['0']) := by decide

lemma subSize_repl24_idem (l : List Char) :
    subSize repl24 (subSize repl24 l) = subSize repl24 l := by
  rw [repl24_eq]
  exact subSize_idem ['2', '4'] ['0'] (by decide) (by decide) (by decide) (by decide) l

lemma subSize_repl14_idem (l : List Char) :
    subSize repl14 (subSize repl14 l) = subSize repl14 l := by
  rw [repl14_eq]
  exact subSize_idem ['1', '4'] ['0'] (by decide) (by decide) (by decide) (by decide) l

lemma containsSub_cons (pat : List Char) (c : Char) (x : List Char) :
    containsSub pat (c :: x) = (pat.isPrefixOf (c :: x) || containsSub pat x) := rfl

/-- A string that has `pat` as a factor passes the substring test. -/
lemma containsSub_append_self (pat : List Char) (hp : pat ≠ []) :
    ∀ x y : List Char, containsSub pat (x ++ (pat ++ y)) = true := by
  intro x
  induction x with
  | nil =>
    intro y
    cases pat with
    | nil => exact absurd rfl hp
    | cons p pt =>
      rw [List.nil_append, List.cons_append, containsSub_cons]
      have : (p :: pt).isPrefixOf (p :: (pt ++ y)) = true := by
        rw [List.isPrefixOf_iff_prefix]
        exact ⟨y, by simp⟩
      rw [this, Bool.true_or]
  | cons a xt ih =>
    intro y
    rw [List.cons_append, containsSub_cons, ih y, Bool.or_true]

/-- A pattern that is not a prefix of `x` and does not contain the first
character of `z` is not a prefix of `x ++ z` either. -/
lemma isPrefixOf_append_false {pat x z : List Char} {c : Char}
    (hz : z.head? = some c) (hc : c ∉ pat)
    (hx : pat.isPrefixOf x = false) :
    pat.isPrefixOf (x ++ z) = false := by
  by_contra hcon
  rw [Bool.not_eq_false, List.isPrefixOf_iff_prefix] at hcon
  obtain ⟨t, ht⟩ := hcon
  by_cases hlen : pat.length ≤ x.length
  · have hpre : pat = x.take pat.length := by
      have h2 := congrArg (List.take pat.length) ht
      rw [List.take_append_of_le_length hlen, List.take_left] at h2
      exact h2
    have : pat.isPrefixOf x = true := by
      rw [List.isPrefixOf_iff_prefix, hpre]
      exact List.take_prefix _ _
    rw [this] at hx
    exact absurd hx (by simp)
  · push_neg at hlen
    have hzne : z ≠ [] := by
      intro hz0
      rw [hz0] at hz
      simp at hz
    have hxlen : x.length < (pat ++ t).length := by
      rw [ht]
      simp only [List.length_append]
      have : 0 < z.length := List.length_pos.mpr hzne
      omega
    have hleft : (pat ++ t)[x.length] = pat[x.length] :=
      List.getElem_append_left hlen
    have hxlen2 : x.length < (x ++ z).length := by
      simp only [List.length_append]
      have : 0 < z.length := List.length_pos.mpr hzne
      omega
    have hright : (x ++ z)[x.length] = c := by
      rw [List.getElem_append_right (Nat.le_refl x.length)]
      cases z with
      | nil => exact absurd rfl hzne
      | cons a tl =>
        simp only [List.head?_cons, Option.some.injEq] at hz
        simpa using hz
    have : pat[x.length] = c := by
      rw [← hleft]
      rw [← hright]
      congr 1
    exact hc (this ▸ List.getElem_mem hlen)

/-- Appending `"\n" ++ marker ++ "\n"` to content free of the marker yields
content with exactly one occurrence of the marker. -/
lemma countOccur_qtMarker_append :
    ∀ content : List Char, containsSub qtMarker content = false →
      countOccur qtMarker (content ++ '\n' :: (qtMarker ++ ['\n'])) = 1 := by
  intro content
  induction content with
  | nil => intro _; decide
  | cons a tl ih =>
    intro h
    rw [containsSub_cons, Bool.or_eq_false_iff] at h
    obtain ⟨h1, h2⟩ := h
    have hpre : qtMarker.isPrefixOf ((a :: tl) ++ '\n' :: (qtMarker ++ ['\n'])) = false :=
      isPrefixOf_append_false (c := '\n') (by simp) (by decide) h1
    rw [List.cons_append]
    show (if qtMarker.isPrefixOf (a :: (tl ++ '\n' :: (qtMarker ++ ['\n']))) then 1 else 0) +
      countOccur qtMarker (tl ++ '\n' :: (qtMarker ++ ['\n'])) = 1
    rw [List.cons_append] at hpre
    rw [hpre]
    simp only [Bool.false_eq_true, if_false, Nat.zero_add]
    exact ih h2

/-! ## Lines: round-trip lemmas for `splitLines`/`joinL` -/

/-- A well-formed line: nonempty, with no interior newline. -/
def IsLine (l : List Char) : Prop := l ≠ [] ∧ '\n' ∉ l.dropLast

lemma splitLines_cons_ne_nil (c : Char) (cs : List Char) : splitLines (c :: cs) ≠ [] := by
  unfold splitLines
  by_cases h : c = '\n'
  · simp [h]
  · cases hsc : splitLines cs <;> simp [h, hsc]

lemma splitLines_eq_nil {s : List Char} (h : splitLines s = []) : s = [] := by
  cases s with
  | nil => rfl
  | cons c cs => exact absurd h (splitLines_cons_ne_nil c cs)

lemma joinL_splitLines : ∀ s : List Char, joinL (splitLines s) = s := by
  intro s
  induction s with
  | nil => rfl
  | cons c cs ih =>
    unfold splitLines
    by_cases h : c = '\n'
    · subst h
      simp only [if_pos rfl, joinL]
      rw [ih]
      rfl
    · rw [if_neg h]
      cases hsc : splitLines cs with
      | nil =>
        have hcs : cs = [] := splitLines_eq_nil hsc
        subst hcs
        simp [joinL]
      | cons l ls =>
        rw [hsc] at ih
        simp only [joinL] at ih ⊢
        rw [List.cons_append, ih]

lemma isLine_splitLines : ∀ (s : List Char), ∀ l ∈ splitLines s, IsLine l := by
  intro s
  induction s with
  | nil => intro l hl; simp [splitLines] at hl
  | cons c cs ih =>
    intro l hl
    unfold splitLines at hl
    by_cases h : c = '\n'
    · rw [if_pos h] at hl
      rcases List.mem_cons.mp hl with rfl | hl
      · exact ⟨by simp, by simp⟩
      · exact ih l hl
    · rw [if_neg h] at hl
      cases hsc : splitLines cs with
      | nil =>
        rw [hsc] at hl
        simp only [List.mem_singleton] at hl
        subst hl
        exact ⟨by simp, by simp⟩
      | cons m ms =>
        rw [hsc] at hl
        rcases List.mem_cons.mp hl with rfl | hl
        · have hm : IsLine m := ih m (by rw [hsc]; simp)
          refine ⟨by simp, ?_⟩
          cases m with
          | nil => exact absurd rfl hm.1
          | cons m0 mt =>
            rw [List.dropLast_cons₂]
            intro hmem
            rcases List.mem_cons.mp hmem with hh | hh
            · exact h hh.symm
            · exact hm.2 hh
        · exact ih l (by rw [hsc]; exact List.mem_cons_of_mem _ hl)

lemma endsNL_splitLines : ∀ (s : List Char), ∀ l ∈ (splitLines s).dropLast,
    l.getLast? = some '\n' := by
  intro s
  induction s with
  | nil => intro l hl; simp [splitLines] at hl
  | cons c cs ih =>
    intro l hl
    unfold splitLines at hl
    by_cases h : c = '\n'
    · rw [if_pos h] at hl
      cases hsc : splitLines cs with
      | nil => rw [hsc] at hl; simp at hl
      | cons m ms =>
        rw [hsc] at hl
        rw [List.dropLast_cons₂] at hl
        rcases List.mem_cons.mp hl with rfl | hl
        · simp
        · exact ih l (by rw [hsc]; exact hl)
    · rw [if_neg h] at hl
      cases hsc : splitLines cs with
      | nil => rw [hsc] at hl; simp at hl
      | cons m ms =>
        rw [hsc] at hl
        cases ms with
        | nil => simp at hl
        | cons m2 ms2 =>
          rw [List.dropLast_cons₂] at hl
          rcases List.mem_cons.mp hl with rfl | hl
          · have hm := ih m (by rw [hsc, List.dropLast_cons₂]; simp)
            have hmne : m ≠ [] := (isLine_splitLines cs m (by rw [hsc]; simp)).1
            cases m with
            | nil => exact absurd rfl hmne
            | cons m0 mt => rw [List.getLast?_cons_cons]; exact hm
          · exact ih l (by rw [hsc, List.dropLast_cons₂]; exact List.mem_cons_of_mem _ hl)

lemma splitLines_cons_not_nl {c : Char} (cs : List Char) (h : c ≠ '\n') :
    splitLines (c :: cs) =
      match splitLines cs with
      | [] => [[c]]
      | l :: ls => (c :: l) :: ls := by
  have hstep : splitLines (c :: cs) =
      if c = '\n' then ['\n'] :: splitLines cs
      else match splitLines cs with
        | [] => [[c]]
        | l :: ls => (c :: l) :: ls := rfl
  rw [hstep, if_neg h]

lemma splitLines_append_line (body : List Char) (hb : '\n' ∉ body) :
    ∀ r : List Char, splitLines ((body ++ ['\n']) ++ r) = (body ++ ['\n']) :: splitLines r := by
  induction body with
  | nil => intro r; simp [splitLines]
  | cons a bt ih =>
    intro r
    have ha : a ≠ '\n' := fun hc => hb (by simp [hc])
    have hbt : '\n' ∉ bt := fun hc => hb (List.mem_cons_of_mem _ hc)
    show splitLines (a :: ((bt ++ ['\n']) ++ r)) = ((a :: bt) ++ ['\n']) :: splitLines r
    rw [splitLines_cons_not_nl _ ha, ih hbt r]
    rfl

lemma splitLines_noNL : ∀ l : List Char, l ≠ [] → '\n' ∉ l → splitLines l = [l] := by
  intro l
  induction l with
  | nil => intro hne _; exact absurd rfl hne
  | cons a tl ih =>
    intro _ hb
    have ha : a ≠ '\n' := fun hc => hb (by simp [hc])
    unfold splitLines
    rw [if_neg ha]
    cases tl with
    | nil => rfl
    | cons b bt =>
      rw [ih (by simp) fun hc => hb (List.mem_cons_of_mem _ hc)]

lemma not_mem_of_not_dropLast_not_getLast {l : List Char} {c : Char} (hne : l ≠ [])
    (hd : c ∉ l.dropLast) (hl : l.getLast? ≠ some c) : c ∉ l := by
  intro hc
  have hdecomp : l.dropLast ++ [l.getLast hne] = l := List.dropLast_append_getLast hne
  rw [← hdecomp] at hc
  rcases List.mem_append.mp hc with hh | hh
  · exact hd hh
  · simp only [List.mem_singleton] at hh
    exact hl (by rw [List.getLast?_eq_getLast l hne, ← hh])

lemma splitLines_joinL : ∀ ls : List (List Char),
    (∀ l ∈ ls, IsLine l) → (∀ l ∈ ls.dropLast, l.getLast? = some '\n') →
    splitLines (joinL ls) = ls := by
  intro ls
  induction ls with
  | nil => intro _ _; rfl
  | cons l ls ih =>
    intro hIs hNL
    have hl : IsLine l := hIs l (by simp)
    cases ls with
    | nil =>
      show splitLines (l ++ joinL []) = [l]
      simp only [joinL, List.append_nil]
      by_cases hE : l.getLast? = some '\n'
      · have hdec : l = l.dropLast ++ ['\n'] := (List.dropLast_append_getLast? '\n' hE).symm
        rw [hdec]
        have := splitLines_append_line l.dropLast hl.2 []
        simpa [splitLines] using this
      · exact splitLines_noNL l hl.1 (not_mem_of_not_dropLast_not_getLast hl.1 hl.2 hE)
    | cons l2 ls2 =>
      have hE : l.getLast? = some '\n' := hNL l (by rw [List.dropLast_cons₂]; simp)
      have hdec : l = l.dropLast ++ ['\n'] := (List.dropLast_append_getLast? '\n' hE).symm
      show splitLines (l ++ joinL (l2 :: ls2)) = l :: l2 :: ls2
      rw [hdec, splitLines_append_line l.dropLast hl.2]
      rw [ih (fun m hm => hIs m (List.mem_cons_of_mem _ hm))
        (fun m hm => hNL m (by rw [List.dropLast_cons₂]; exact List.mem_cons_of_mem _ hm))]

lemma dropLast_filter_endsNL (p : List Char → Bool) :
    ∀ ls : List (List Char), (∀ l ∈ ls.dropLast, l.getLast? = some '\n') →
      ∀ l ∈ (ls.filter p).dropLast, l.getLast? = some '\n' := by
  intro ls
  induction ls with
  | nil => intro _ l hl; simp at hl
  | cons x xs ih =>
    intro h l hl
    cases xs with
    | nil =>
      by_cases hp : p x <;> simp [List.filter, hp] at hl
    | cons y ys =>
      have hx : x.getLast? = some '\n' := h x (by rw [List.dropLast_cons₂]; simp)
      have htail : ∀ m ∈ (y :: ys).dropLast, m.getLast? = some '\n' := fun m hm =>
        h m (by rw [List.dropLast_cons₂]; exact List.mem_cons_of_mem _ hm)
      rw [List.filter_cons] at hl
      by_cases hp : p x
      · rw [if_pos hp] at hl
        cases hf : (y :: ys).filter p with
        | nil => rw [hf] at hl; simp at hl
        | cons f fs =>
          rw [hf] at hl
          rw [List.dropLast_cons₂] at hl
          rcases List.mem_cons.mp hl with rfl | hl2
          · exact hx
          · exact ih htail l (by rw [hf]; exact hl2)
      · rw [if_neg hp] at hl
        exact ih htail l hl

/-! ## The substitution acts line by line

A match of `size = \d+\.\d+` never contains a newline, so `subSize`
distributes over newline characters and hence acts independently on each
line of the file. -/

lemma mem_matched_ne_nl {d1 d2 : List Char}
    (hd1 : ∀ c ∈ d1, c.isDigit = true) (hd2 : ∀ c ∈ d2, c.isDigit = true) :
    ∀ x ∈ sizePat ++ (d1 ++ '.' :: d2), x ≠ '\n' := by
  intro x hx hxs
  subst hxs
  simp only [List.mem_append, List.mem_cons, sizePat] at hx
  rcases hx with hx | hx | hx | hx
  · rcases hx with h | h | h | h | h | h | h <;> exact absurd h (by decide)
  · exact absurd (hd1 '\n' hx) (by decide)
  · exact absurd hx (by decide)
  · exact absurd (hd2 '\n' hx) (by decide)

lemma matchSize_cons_ne_s {c : Char} (cs : List Char) (h : c ≠ 's') :
    matchSize (c :: cs) = none := by
  unfold matchSize
  rw [if_neg]
  intro hcon
  rw [List.isPrefixOf_iff_prefix] at hcon
  obtain ⟨t, ht⟩ := hcon
  have : 's' = c := by
    have := congrArg List.head? ht
    simpa [sizePat] using this
  exact h this.symm

lemma matchSize_append_none {x z : List Char} (hz : z.head? = some '\n')
    (hx : matchSize x = none) : matchSize (x ++ z) = none := by
  cases hm : matchSize (x ++ z) with
  | none => rfl
  | some r =>
    exfalso
    obtain ⟨d1, d2, h1, h2, hd1, hd2, hshape, _⟩ := matchSize_shape hm
    have hshape' : x ++ z = (sizePat ++ (d1 ++ '.' :: d2)) ++ r := by
      rw [hshape]
      simp
    set P : List Char := sizePat ++ (d1 ++ '.' :: d2) with hP
    by_cases hlen : P.length ≤ x.length
    · have hPx : P = x.take P.length := by
        have hc := congrArg (List.take P.length) hshape'
        rw [List.take_append_of_le_length hlen, List.take_left] at hc
        exact hc.symm
      obtain ⟨x2, hxdec⟩ : ∃ x2, x = P ++ x2 :=
        ⟨x.drop P.length, by nth_rewrite 1 [← List.take_append_drop P.length x]; rw [← hPx]⟩
      rw [hxdec, hP] at hx
      have hassoc : (sizePat ++ (d1 ++ '.' :: d2)) ++ x2 =
          sizePat ++ (d1 ++ '.' :: (d2 ++ x2)) := by simp
      rw [hassoc, matchSize_shape_eval h1 h2 hd1 hd2] at hx
      exact absurd hx (by simp)
    · push_neg at hlen
      have hzne : z ≠ [] := by
        intro hz0
        rw [hz0] at hz
        simp at hz
      have hxlen2 : x.length < (x ++ z).length := by
        simp only [List.length_append]
        have : 0 < z.length := List.length_pos.mpr hzne
        omega
      have hleft : (x ++ z)[x.length] = '\n' := by
        rw [List.getElem_append_right (Nat.le_refl x.length)]
        cases z with
        | nil => exact absurd rfl hzne
        | cons a tl =>
          simp only [List.head?_cons, Option.some.injEq] at hz
          simpa using hz
      have hxlen3 : x.length < (P ++ r).length := by
        simp only [List.length_append]
        omega
      have hright : (P ++ r)[x.length] = P[x.length] :=
        List.getElem_append_left hlen
      have : P[x.length] = '\n' := by
        rw [← hright, ← hleft]
        congr 1
        exact hshape'.symm
      exact mem_matched_ne_nl hd1 hd2 _ (List.getElem_mem hlen) this

lemma matchSize_append_some {x z rest : List Char} (hz : z.head? = some '\n')
    (hm : matchSize x = some rest) : matchSize (x ++ z) = some (rest ++ z) := by
  obtain ⟨d1, d2, h1, h2, hd1, hd2, hshape, hrest⟩ := matchSize_shape hm
  rw [hshape]
  have hassoc : (sizePat ++ (d1 ++ '.' :: (d2 ++ rest))) ++ z =
      sizePat ++ (d1 ++ '.' :: (d2 ++ (rest ++ z))) := by simp
  rw [hassoc]
  apply matchSize_exact h1 h2 hd1 hd2
  intro c hc
  cases rest with
  | nil =>
    simp only [List.nil_append] at hc
    rw [hc] at hz
    simp only [Option.some.injEq] at hz
    rw [hz]
    decide
  | cons a tl =>
    simp only [List.cons_append, List.head?_cons, Option.some.injEq] at hc
    subst hc
    exact hrest a (by simp)

/-- `subSize` distributes over a newline. -/
lemma subSize_append_nl (repl : List Char) :
    ∀ (x y : List Char), subSize repl (x ++ '\n' :: y) = subSize repl x ++ '\n' :: subSize repl y := by
  suffices h : ∀ (n : Nat) (x : List Char), x.length = n → ∀ y : List Char,
      subSize repl (x ++ '\n' :: y) = subSize repl x ++ '\n' :: subSize repl y by
    intro x y
    exact h x.length x rfl y
  intro n
  induction n using Nat.strong_induction_on with
  | _ n ih =>
    intro x hn y
    subst hn
    cases hms : matchSize x with
    | some rest =>
      have hz : ('\n' :: y).head? = some '\n' := by simp
      rw [subSize_eq_match repl (matchSize_append_some hz hms)]
      rw [subSize_eq_match repl hms]
      rw [ih rest.length (matchSize_lt hms) rest rfl y]
      simp
    | none =>
      cases x with
      | nil =>
        rw [subSize_nilArg, List.nil_append]
        rw [subSize_eq_cons repl (matchSize_cons_ne_s y (by decide))]
        rfl
      | cons c cs =>
        have hz : ('\n' :: y).head? = some '\n' := by simp
        have hnone : matchSize ((c :: cs) ++ '\n' :: y) = none :=
          matchSize_append_none hz hms
        rw [List.cons_append] at hnone ⊢
        rw [subSize_eq_cons repl hnone, subSize_eq_cons repl hms]
        rw [ih cs.length (by simp) cs rfl y]
        rfl

lemma mem_subSize (repl : List Char) :
    ∀ (l : List Char) (c : Char), c ∈ subSize repl l → c ∈ l ∨ c ∈ repl := by
  suffices h : ∀ (n : Nat) (l : List Char), l.length = n → ∀ c : Char,
      c ∈ subSize repl l → c ∈ l ∨ c ∈ repl by
    intro l c
    exact h l.length l rfl c
  intro n
  induction n using Nat.strong_induction_on with
  | _ n ih =>
    intro l hn c hc
    subst hn
    cases hms : matchSize l with
    | some rest =>
      rw [subSize_eq_match repl hms] at hc
      rcases List.mem_append.mp hc with hh | hh
      · exact Or.inr hh
      · rcases ih rest.length (matchSize_lt hms) rest rfl c hh with hh2 | hh2
        · obtain ⟨d1, d2, _, _, _, _, hshape, _⟩ := matchSize_shape hms
          left
          rw [hshape]
          simp [hh2]
        · exact Or.inr hh2
    | none =>
      cases l with
      | nil => rw [subSize_nilArg] at hc; simp at hc
      | cons a cs =>
        rw [subSize_eq_cons repl hms] at hc
        rcases List.mem_cons.mp hc with rfl | hh
        · exact Or.inl (by simp)
        · rcases ih cs.length (by simp) cs rfl c hh with hh2 | hh2
          · exact Or.inl (List.mem_cons_of_mem _ hh2)
          · exact Or.inr hh2

lemma subSize_ne_nil (repl : List Char) (hrepl : repl ≠ []) {l : List Char} (hl : l ≠ []) :
    subSize repl l ≠ [] := by
  cases hms : matchSize l with
  | some rest =>
    rw [subSize_eq_match repl hms]
    simp [hrepl]
  | none =>
    cases l with
    | nil => exact absurd rfl hl
    | cons c cs =>
      rw [subSize_eq_cons repl hms]
      simp

lemma subSize_concat_nl (repl x : List Char) :
    subSize repl (x ++ ['\n']) = subSize repl x ++ ['\n'] := by
  rw [subSize_append_nl repl x [], subSize_nilArg]

lemma subSize_joinL_map (repl : List Char) :
    ∀ ls : List (List Char), (∀ l ∈ ls.dropLast, l.getLast? = some '\n') →
      subSize repl (joinL ls) = joinL (ls.map (subSize repl)) := by
  intro ls
  induction ls with
  | nil => intro _; rfl
  | cons l ls ih =>
    intro hNL
    cases ls with
    | nil =>
      show subSize repl (l ++ joinL []) = joinL [subSize repl l]
      simp [joinL]
    | cons l2 ls2 =>
      have hE : l.getLast? = some '\n' := hNL l (by rw [List.dropLast_cons₂]; simp)
      have hdec : l = l.dropLast ++ ['\n'] := (List.dropLast_append_getLast? '\n' hE).symm
      show subSize repl (l ++ joinL (l2 :: ls2)) =
        joinL ((l :: l2 :: ls2).map (subSize repl))
      rw [hdec]
      have h1 : (l.dropLast ++ ['\n']) ++ joinL (l2 :: ls2) =
          l.dropLast ++ '\n' :: joinL (l2 :: ls2) := by simp
      rw [h1, subSize_append_nl]
      rw [ih (fun m hm => hNL m (by rw [List.dropLast_cons₂]; exact List.mem_cons_of_mem _ hm))]
      simp only [List.map_cons, joinL, subSize_concat_nl]
      simp

lemma splitLines_map_subSize (repl : List Char) (hne : repl ≠ []) (hnl : '\n' ∉ repl) :
    ∀ s : List Char, splitLines (subSize repl s) = (splitLines s).map (subSize repl) := by
  intro s
  have h1 : subSize repl s = joinL ((splitLines s).map (subSize repl)) := by
    nth_rewrite 1 [← joinL_splitLines s]
    exact subSize_joinL_map repl (splitLines s) (endsNL_splitLines s)
  rw [h1]
  apply splitLines_joinL
  · intro m hm
    obtain ⟨l, hl, rfl⟩ := List.mem_map.mp hm
    have hIl := isLine_splitLines s l hl
    constructor
    · exact subSize_ne_nil repl hne hIl.1
    · by_cases hE : l.getLast? = some '\n'
      · have hdec : l = l.dropLast ++ ['\n'] := (List.dropLast_append_getLast? '\n' hE).symm
        rw [hdec, subSize_concat_nl, List.dropLast_concat]
        intro hcon
        rcases mem_subSize repl l.dropLast '\n' hcon with h | h
        · exact hIl.2 h
        · exact hnl h
      · have hfree : '\n' ∉ l := not_mem_of_not_dropLast_not_getLast hIl.1 hIl.2 hE
        intro hcon
        have hmem : '\n' ∈ subSize repl l := (List.dropLast_sublist _).subset hcon
        rcases mem_subSize repl l '\n' hmem with h | h
        · exact hfree h
        · exact hnl h
  · intro m hm
    rw [← List.map_dropLast] at hm
    obtain ⟨l, hl, rfl⟩ := List.mem_map.mp hm
    have hE := endsNL_splitLines s l hl
    have hdec : l = l.dropLast ++ ['\n'] := (List.dropLast_append_getLast? '\n' hE).symm
    rw [hdec, subSize_concat_nl]
    exact List.getLast?_concat _

/-- Content in which the pattern matches at no position is left unchanged. -/
lemma subSize_eq_self_of_matchFree (repl : List Char) :
    ∀ l : List Char, (∀ u v : List Char, l = u ++ v → matchSize v = none) →
      subSize repl l = l := by
  intro l
  induction l with
  | nil => intro _; rfl
  | cons c cs ih =>
    intro h
    have hms : matchSize (c :: cs) = none := h [] (c :: cs) rfl
    rw [subSize_eq_cons repl hms]
    rw [ih fun u v huv => h (c :: u) v (by rw [huv, List.cons_append])]

/-- If the pattern matches somewhere in `l`, the replacement string occurs
in the output of the substitution. -/
lemma containsSub_repl_subSize (repl : List Char) (hne : repl ≠ []) :
    ∀ (l u v rest : List Char), l = u ++ v → matchSize v = some rest →
      containsSub repl (subSize repl l) = true := by
  suffices h : ∀ (n : Nat) (l : List Char), l.length = n → ∀ u v rest, l = u ++ v →
      matchSize v = some rest → containsSub repl (subSize repl l) = true by
    intro l u v rest h1 h2
    exact h l.length l rfl u v rest h1 h2
  intro n
  induction n using Nat.strong_induction_on with
  | _ n ih =>
    intro l hn u v rest huv hv
    subst hn
    cases hms : matchSize l with
    | some r =>
      rw [subSize_eq_match repl hms]
      have := containsSub_append_self repl hne [] (subSize repl r)
      simpa using this
    | none =>
      cases l with
      | nil =>
        have hvnil : v = [] := (List.append_eq_nil.mp huv.symm).2
        rw [hvnil, matchSize_nil] at hv
        exact absurd hv (by simp)
      | cons c cs =>
        cases u with
        | nil =>
          simp only [List.nil_append] at huv
          rw [← huv] at hv
          rw [hv] at hms
          exact absurd hms (by simp)
        | cons u0 ut =>
          rw [List.cons_append] at huv
          have hcs : cs = ut ++ v := ((List.cons.injEq _ _ _ _).mp huv).2
          rw [subSize_eq_cons repl hms, containsSub_cons]
          rw [ih cs.length (by simp) cs rfl ut v rest hcs hv]
          simp

/-! ## Claim-support lemmas for the highdpi steps -/

/-- Decidable check that the pattern matches at no suffix of `l`. -/
def matchFreeB : List Char → Bool
  | [] => true
  | c :: cs => (matchSize (c :: cs)).isNone && matchFreeB cs

lemma subSize_eq_self_of_matchFreeB (repl : List Char) :
    ∀ l, matchFreeB l = true → subSize repl l = l := by
  intro l
  induction l with
  | nil => intro _; rfl
  | cons c cs ih =>
    intro h
    simp only [matchFreeB, Bool.and_eq_true] at h
    have hms : matchSize (c :: cs) = none := Option.isNone_iff_eq_none.mp h.1
    rw [subSize_eq_cons repl hms, ih h.2]

lemma xsessionHighdpi_contains :
    ∀ x : Option (List Char), ∃ c, (xsessionHighdpi x).1 = some c ∧
      containsSub qtMarker c = true := by
  intro x
  match x with
  | none =>
    refine ⟨qtMarker ++ ['\n'], rfl, ?_⟩
    have := containsSub_append_self qtMarker (by decide) [] ['\n']
    simpa using this
  | some content =>
    by_cases h : containsSub qtMarker content
    · exact ⟨content, by simp [xsessionHighdpi, h], h⟩
    · refine ⟨content ++ '\n' :: (qtMarker ++ ['\n']),
        by simp [xsessionHighdpi, h], ?_⟩
      have := containsSub_append_self qtMarker (by decide) (content ++ ['\n']) ['\n']
      simpa using this

lemma xsessionHighdpi_idem (x : Option (List Char)) :
    xsessionHighdpi (xsessionHighdpi x).1 = ((xsessionHighdpi x).1, [DpiMsg.alreadySet]) := by
  obtain ⟨c, hc, hcont⟩ := xsessionHighdpi_contains x
  rw [hc]
  simp [xsessionHighdpi, hcont]

lemma splitLines_joinL_filter (content : List Char) (p : List Char → Bool) :
    splitLines (joinL ((splitLines content).filter p)) = (splitLines content).filter p := by
  apply splitLines_joinL
  · intro l hl
    exact isLine_splitLines content l (List.mem_filter.mp hl).1
  · exact dropLast_filter_endsNL p (splitLines content) (endsNL_splitLines content)

lemma xsessionNormal_fst_idem (x : Option (List Char)) :
    (xsessionNormal (xsessionNormal x).1).1 = (xsessionNormal x).1 := by
  match x with
  | none => rfl
  | some content =>
    show (xsessionNormal (some (joinL ((splitLines content).filter fun l =>
      !containsSub qtMarker l)))).1 = _
    simp only [xsessionNormal]
    congr 1
    rw [splitLines_joinL_filter content]
    congr 1
    apply List.filter_eq_self.mpr
    intro l hl
    exact (List.mem_filter.mp hl).2

lemma alacrittyPatch_fst_idem (repl : List Char)
    (hidem : ∀ l, subSize repl (subSize repl l) = subSize repl l)
    (m : DpiMsg) (a : Option (List Char)) :
    (alacrittyPatch repl m (alacrittyPatch repl m a).1).1 = (alacrittyPatch repl m a).1 := by
  match a with
  | none => rfl
  | some content => simp [alacrittyPatch, hidem]

lemma applyHighdpiMode_fs_idem (oracle oracle2 : List (List Char) → Option Nat) (dfs : DpiFS) :
    (applyHighdpiMode oracle2 (applyHighdpiMode oracle dfs).fs).fs =
      (applyHighdpiMode oracle dfs).fs := by
  simp only [applyHighdpiMode]
  rw [DpiFS.mk.injEq]
  constructor
  · have h := congrArg Prod.fst (xsessionHighdpi_idem dfs.xsessionrc)
    exact h
  · exact alacrittyPatch_fst_idem repl24 subSize_repl24_idem DpiMsg.settingAlacritty24 dfs.alacritty

lemma applyNormalMode_fs_idem (oracle oracle2 : List (List Char) → Option Nat) (dfs : DpiFS) :
    (applyNormalMode oracle2 (applyNormalMode oracle dfs).fs).fs =
      (applyNormalMode oracle dfs).fs := by
  simp only [applyNormalMode]
  rw [DpiFS.mk.injEq]
  constructor
  · exact xsessionNormal_fst_idem dfs.xsessionrc
  · exact alacrittyPatch_fst_idem repl14 subSize_repl14_idem DpiMsg.settingAlacritty14 dfs.alacritty

/-! ## Claim-support lemmas for the BusID pipeline -/

lemma find?_first {α : Type} (p : α → Bool) :
    ∀ (pre : List α) (x : α) (post : List α), (∀ l ∈ pre, p l = false) → p x = true →
      (pre ++ x :: post).find? p = some x := by
  intro pre
  induction pre with
  | nil =>
    intro x post _ hx
    rw [List.nil_append]
    exact List.find?_cons_of_pos _ hx
  | cons a tl ih =>
    intro x post h hx
    have ha : p a = false := h a (by simp)
    rw [List.cons_append, List.find?_cons_of_neg _ (by simp [ha])]
    exact ih x post (fun l hl => h l (List.mem_cons_of_mem _ hl)) hx

lemma parseHexGo_some_mem {l : List Char} {acc v : Nat} (h : parseHexGo acc l = some v) :
    ∀ c ∈ l, (hexDigitVal c).isSome = true := by
  induction l generalizing acc with
  | nil => intro c hc; simp at hc
  | cons a tl ih =>
    intro c hc
    simp only [parseHexGo] at h
    cases hv : hexDigitVal a with
    | none => rw [hv] at h; exact absurd h (by simp)
    | some w =>
      rw [hv] at h
      rcases List.mem_cons.mp hc with rfl | hc2
      · simp [hv]
      · exact ih h c hc2

lemma parseDecGo_some_mem {l : List Char} {acc v : Nat} (h : parseDecGo acc l = some v) :
    ∀ c ∈ l, (decDigitVal c).isSome = true := by
  induction l generalizing acc with
  | nil => intro c hc; simp at hc
  | cons a tl ih =>
    intro c hc
    simp only [parseDecGo] at h
    cases hv : decDigitVal a with
    | none => rw [hv] at h; exact absurd h (by simp)
    | some w =>
      rw [hv] at h
      rcases List.mem_cons.mp hc with rfl | hc2
      · simp [hv]
      · exact ih h c hc2

lemma parseHex_some {b : List Char} {v : Nat} (h : parseHex b = some v) :
    b ≠ [] ∧ ∀ c ∈ b, (hexDigitVal c).isSome = true := by
  unfold parseHex at h
  split at h
  · exact absurd h (by simp)
  · next hne =>
    refine ⟨?_, parseHexGo_some_mem h⟩
    intro hb
    rw [hb] at hne
    simp at hne

lemma parseDec_some {b : List Char} {v : Nat} (h : parseDec b = some v) :
    b ≠ [] ∧ ∀ c ∈ b, (decDigitVal c).isSome = true := by
  unfold parseDec at h
  split at h
  · exact absurd h (by simp)
  · next hne =>
    refine ⟨?_, parseDecGo_some_mem h⟩
    intro hb
    rw [hb] at hne
    simp at hne

lemma decDigit_isHex {c : Char} (h : (decDigitVal c).isSome = true) :
    (hexDigitVal c).isSome = true := by
  by_cases hr : '0' ≤ c ∧ c ≤ '9'
  · simp [hexDigitVal, hr]
  · simp [decDigitVal, hr] at h

lemma hexDigit_not_space {c : Char} (h : (hexDigitVal c).isSome = true) :
    isSpacePy c = false := by
  by_contra hc
  rw [Bool.not_eq_false] at hc
  simp only [isSpacePy, Bool.or_eq_true, decide_eq_true_eq] at hc
  rcases hc with rfl | rfl
  · exact absurd h (by decide)
  · exact absurd h (by decide)

lemma hexDigit_ne_colon {c : Char} (h : (hexDigitVal c).isSome = true) : c ≠ ':' := by
  rintro rfl
  exact absurd h (by decide)

lemma hexDigit_ne_dot {c : Char} (h : (hexDigitVal c).isSome = true) : c ≠ '.' := by
  rintro rfl
  exact absurd h (by decide)

lemma map_rep_id {x : List Char} (h : ∀ c ∈ x, c ≠ '.') :
    x.map (fun c => if c = '.' then ':' else c) = x := by
  induction x with
  | nil => rfl
  | cons a tl ih =>
    simp only [List.map_cons]
    rw [if_neg (h a (by simp)), ih fun c hc => h c (List.mem_cons_of_mem _ hc)]

lemma splitOnChar_cons_ne (sep : Char) {c : Char} (cs : List Char) (h : c ≠ sep) :
    splitOnChar sep (c :: cs) =
      match splitOnChar sep cs with
      | [] => [[c]]
      | l :: ls => (c :: l) :: ls := by
  have hstep : splitOnChar sep (c :: cs) =
      if c = sep then [] :: splitOnChar sep cs
      else match splitOnChar sep cs with
        | [] => [[c]]
        | l :: ls => (c :: l) :: ls := rfl
  rw [hstep, if_neg h]

lemma splitOnChar_free (sep : Char) : ∀ x, (∀ c ∈ x, c ≠ sep) → splitOnChar sep x = [x] := by
  intro x
  induction x with
  | nil => intro _; rfl
  | cons a tl ih =>
    intro h
    rw [splitOnChar_cons_ne sep tl (h a (by simp))]
    rw [ih fun c hc => h c (List.mem_cons_of_mem _ hc)]

lemma splitOnChar_append_free (sep : Char) :
    ∀ (x y : List Char), (∀ c ∈ x, c ≠ sep) →
      splitOnChar sep (x ++ sep :: y) = x :: splitOnChar sep y := by
  intro x
  induction x with
  | nil =>
    intro y _
    rw [List.nil_append]
    have hstep : splitOnChar sep (sep :: y) =
        if sep = sep then [] :: splitOnChar sep y
        else match splitOnChar sep y with
          | [] => [[sep]]
          | l :: ls => (sep :: l) :: ls := rfl
    rw [hstep, if_pos rfl]
  | cons a tl ih =>
    intro y h
    have ha : a ≠ sep := h a (by simp)
    rw [List.cons_append, splitOnChar_cons_ne sep _ ha]
    rw [ih y fun c hc => h c (List.mem_cons_of_mem _ hc)]

lemma parseBusId_eval {b d f tail : List Char} {vb vd vf : Nat}
    (hb : parseHex b = some vb) (hd : parseHex d = some vd) (hf : parseDec f = some vf) :
    parseBusId ((b ++ ':' :: (d ++ '.' :: f)) ++ ' ' :: tail) =
      some ("PCI:".toList ++ natToDec vb ++ ':' :: (natToDec vd ++ ':' :: natToDec vf)) := by
  obtain ⟨hbne, hbhex⟩ := parseHex_some hb
  obtain ⟨hdne, hdhex⟩ := parseHex_some hd
  obtain ⟨hfne, hfdec⟩ := parseDec_some hf
  have hfhex : ∀ c ∈ f, (hexDigitVal c).isSome = true := fun c hc => decDigit_isHex (hfdec c hc)
  have haddr_nospace : ∀ c ∈ b ++ ':' :: (d ++ '.' :: f), (!isSpacePy c) = true := by
    intro c hc
    simp only [List.mem_append, List.mem_cons] at hc
    rcases hc with hc | rfl | hc | rfl | hc
    · simp [hexDigit_not_space (hbhex c hc)]
    · decide
    · simp [hexDigit_not_space (hdhex c hc)]
    · decide
    · simp [hexDigit_not_space (hfhex c hc)]
  have hdrop : ((b ++ ':' :: (d ++ '.' :: f)) ++ ' ' :: tail).dropWhile isSpacePy =
      (b ++ ':' :: (d ++ '.' :: f)) ++ ' ' :: tail := by
    cases b with
    | nil => exact absurd rfl hbne
    | cons b0 bt =>
      have h0 : isSpacePy b0 = false := hexDigit_not_space (hbhex b0 (by simp))
      rw [List.cons_append, List.cons_append, List.dropWhile_cons_of_neg (by simp [h0])]
  have htake : ((b ++ ':' :: (d ++ '.' :: f)) ++ ' ' :: tail).takeWhile (fun c => !isSpacePy c) =
      b ++ ':' :: (d ++ '.' :: f) := by
    rw [takeWhile_append_all _ _ _ haddr_nospace]
    rw [List.takeWhile_cons_of_neg (by decide)]
    rw [List.append_nil]
  have hmap : (b ++ ':' :: (d ++ '.' :: f)).map (fun c => if c = '.' then ':' else c) =
      b ++ ':' :: (d ++ ':' :: f) := by
    rw [List.map_append, List.map_cons, List.map_append, List.map_cons]
    rw [map_rep_id fun c hc => hexDigit_ne_dot (hbhex c hc)]
    rw [map_rep_id fun c hc => hexDigit_ne_dot (hdhex c hc)]
    rw [map_rep_id fun c hc => hexDigit_ne_dot (decDigit_isHex (hfdec c hc))]
    rw [if_neg (by decide), if_pos rfl]
  have hsplit : splitOnChar ':' (b ++ ':' :: (d ++ ':' :: f)) = [b, d, f] := by
    rw [splitOnChar_append_free ':' b _ fun c hc => hexDigit_ne_colon (hbhex c hc)]
    rw [splitOnChar_append_free ':' d _ fun c hc => hexDigit_ne_colon (hdhex c hc)]
    rw [splitOnChar_free ':' f fun c hc => hexDigit_ne_colon (decDigit_isHex (hfdec c hc))]
  have htokne : (b ++ ':' :: (d ++ '.' :: f)).isEmpty = false := by
    cases b with
    | nil => exact absurd rfl hbne
    | cons b0 bt => rfl
  simp only [parseBusId, hdrop, htake, htokne, Bool.false_eq_true, if_false, hmap, hsplit,
    hb, hd, hf]

lemma get_nvidia_busid_fst {out line : List Char} {pre post : List (List Char)}
    (hsplit : pyLines out = pre ++ line :: post)
    (hpre : ∀ l ∈ pre, nvidiaLinePred l = false)
    (hline : nvidiaLinePred line = true) :
    (get_nvidia_busid (some out)).1 = parseBusId line := by
  simp only [get_nvidia_busid, hsplit, find?_first nvidiaLinePred pre line post hpre hline]
  cases parseBusId line <;> rfl

/-! ## The claims -/

/-- C1: for every ConfigTarget not driven by fresh hardware detection,
re-applying a profile when the filesystem is already in the state produced
by applying it leaves every managed file byte-identical, reports the same
confirmations on every further re-application in that state, and never
errors (exit code 0): proved for the intel switch with either power-down
value, for the highdpi mode, and for the normal mode. -/
theorem C1_apply_idempotent (oracle : List (List Char) → Option Nat) (p : Bool)
    (fs : NvFS) (dfs : DpiFS) :
    ((switch_to_intel oracle p (switch_to_intel oracle p fs).fs).fs =
        (switch_to_intel oracle p fs).fs ∧
      (switch_to_intel oracle p fs).exitCode = 0 ∧
      (switch_to_intel oracle p
          ((switch_to_intel oracle p (switch_to_intel oracle p fs).fs).fs)).msgs =
        (switch_to_intel oracle p (switch_to_intel oracle p fs).fs).msgs) ∧
    ((applyHighdpiMode oracle (applyHighdpiMode oracle dfs).fs).fs =
        (applyHighdpiMode oracle dfs).fs ∧
      (applyHighdpiMode oracle dfs).exitCode = 0 ∧
      (applyHighdpiMode oracle
          ((applyHighdpiMode oracle (applyHighdpiMode oracle dfs).fs).fs)).msgs =
        (applyHighdpiMode oracle (applyHighdpiMode oracle dfs).fs).msgs) ∧
    ((applyNormalMode oracle (applyNormalMode oracle dfs).fs).fs =
        (applyNormalMode oracle dfs).fs ∧
      (applyNormalMode oracle dfs).exitCode = 0 ∧
      (applyNormalMode oracle
          ((applyNormalMode oracle (applyNormalMode oracle dfs).fs).fs)).msgs =
        (applyNormalMode oracle (applyNormalMode oracle dfs).fs).msgs) := by
  refine ⟨⟨rfl, rfl, rfl⟩,
    ⟨applyHighdpiMode_fs_idem oracle oracle dfs, rfl, ?_⟩,
    ⟨applyNormalMode_fs_idem oracle oracle dfs, rfl, ?_⟩⟩
  · exact congrArg (fun z => (applyHighdpiMode oracle z).msgs)
      (applyHighdpiMode_fs_idem oracle oracle dfs)
  · exact congrArg (fun z => (applyNormalMode oracle z).msgs)
      (applyNormalMode_fs_idem oracle oracle dfs)

/-- C2: on an existing startup-script file, appending when the marker
substring is absent makes the marker present exactly once and reports the
addition; when the marker is already present the file is byte-for-byte
unchanged and the operation reports "already set". -/
theorem C2_marker_append_law (content : List Char) :
    (containsSub qtMarker content = false →
      (xsessionHighdpi (some content)).1 =
          some (content ++ '\n' :: (qtMarker ++ ['\n'])) ∧
        countOccur qtMarker (content ++ '\n' :: (qtMarker ++ ['\n'])) = 1 ∧
        (xsessionHighdpi (some content)).2 = [DpiMsg.addingQt]) ∧
    (containsSub qtMarker content = true →
      (xsessionHighdpi (some content)).1 = some content ∧
        (xsessionHighdpi (some content)).2 = [DpiMsg.alreadySet]) := by
  constructor
  · intro h
    exact ⟨by simp [xsessionHighdpi, h], countOccur_qtMarker_append content h,
      by simp [xsessionHighdpi, h]⟩
  · intro h
    exact ⟨by simp [xsessionHighdpi, h], by simp [xsessionHighdpi, h]⟩

theorem C2_witness :
    (xsessionHighdpi (some "abc\n".toList)).1 =
        some ("abc\n".toList ++ '\n' :: (qtMarker ++ ['\n'])) ∧
      countOccur qtMarker ("abc\n".toList ++ '\n' :: (qtMarker ++ ['\n'])) = 1 :=
  ⟨((C2_marker_append_law "abc\n".toList).1 (by decide)).1,
   ((C2_marker_append_law "abc\n".toList).1 (by decide)).2.1⟩

/-- C3: normal-mode marker removal leaves the file byte-for-byte unchanged
and reports "not found" when no line contains the marker substring; in
general the rewritten file consists of exactly the original lines that do
not contain the marker, verbatim and in order, and a removal is reported
when some line contained it. -/
theorem C3_marker_removal_law (content : List Char) :
    ((∀ l ∈ splitLines content, containsSub qtMarker l = false) →
      (xsessionNormal (some content)).1 = some content ∧
        (xsessionNormal (some content)).2 = [DpiMsg.notFoundQt]) ∧
    (∀ out, (xsessionNormal (some content)).1 = some out →
      splitLines out = (splitLines content).filter fun l => !containsSub qtMarker l) ∧
    ((splitLines content).any (fun l => containsSub qtMarker l) = true →
      (xsessionNormal (some content)).2 = [DpiMsg.removingQt]) := by
  refine ⟨?_, ?_, ?_⟩
  · intro h
    have hfilter : (splitLines content).filter (fun l => !containsSub qtMarker l) =
        splitLines content :=
      List.filter_eq_self.mpr fun l hl => by simp [h l hl]
    have hany : (splitLines content).any (fun l => containsSub qtMarker l) = false :=
      List.any_eq_false.mpr fun l hl => by simp [h l hl]
    constructor
    · simp only [xsessionNormal, hfilter, joinL_splitLines]
    · simp only [xsessionNormal, hany, Bool.false_eq_true, if_false]
  · intro out hout
    simp only [xsessionNormal, Option.some.injEq] at hout
    rw [← hout, splitLines_joinL_filter]
  · intro h
    simp only [xsessionNormal, h, if_true]

theorem C3_witness :
    (xsessionNormal (some "a\nb\n".toList)).1 = some "a\nb\n".toList ∧
      (xsessionNormal (some "a\nb\n".toList)).2 = [DpiMsg.notFoundQt] :=
  (C3_marker_removal_law "a\nb\n".toList).1 (by decide)

/-- C4: the numeric font-size patch replaces exactly the tokens matching
`size = <int>.<int>`: on the spec's example input the size becomes `24.0`
and the other numeric token is untouched; the patch is idempotent; it acts
line by line; content without a pattern match is left unaltered; and any
input containing `size = 14.0` yields output containing `size = 24.0`. -/
theorem C4_numeric_patch_law :
    (subSize repl24 "font:\n  size = 14.0\nopacity = 0.95\n".toList =
      "font:\n  size = 24.0\nopacity = 0.95\n".toList) ∧
    (∀ s : List Char, subSize repl24 (subSize repl24 s) = subSize repl24 s) ∧
    (∀ s : List Char, splitLines (subSize repl24 s) = (splitLines s).map (subSize repl24)) ∧
    (∀ l : List Char, matchFreeB l = true → subSize repl24 l = l) ∧
    (∀ a c : List Char, containsSub repl24 (subSize repl24 (a ++ (repl14 ++ c))) = true) := by
  refine ⟨by decide, subSize_repl24_idem,
    splitLines_map_subSize repl24 (by decide) (by decide),
    subSize_eq_self_of_matchFreeB repl24, ?_⟩
  intro a c
  apply containsSub_repl_subSize repl24 (by decide) (a ++ (repl14 ++ c)) a (repl14 ++ c)
    (c.dropWhile Char.isDigit) rfl
  rw [repl14_eq]
  have hassoc : (sizePat ++ (['1', '4'] ++ '.' :: ['0'])) ++ c =
      sizePat ++ (['1', '4'] ++ '.' :: (['0'] ++ c)) := by simp
  rw [hassoc]
  exact matchSize_shape_eval (by decide) (by decide) (by decide) (by decide)

theorem C4_witness :
    matchFreeB "opacity = 0.95\n".toList = true ∧
    subSize repl24 "opacity = 0.95\n".toList = "opacity = 0.95\n".toList ∧
    containsSub repl24 (subSize repl24 ("a ".toList ++ (repl14 ++ "\n".toList))) = true :=
  ⟨by decide, C4_numeric_patch_law.2.2.2.1 "opacity = 0.95\n".toList (by decide),
   C4_numeric_patch_law.2.2.2.2 "a ".toList "\n".toList⟩

/-- A sample `lspci -nn` output whose second line is the first NVIDIA
VGA/3D line. -/
def lspciSample : List Char :=
  "00:1f.3 Audio device [0403]: Intel Corporation\n01:00.0 VGA compatible controller [0300]: NVIDIA Corporation TU117M\n".toList

/-- C5: the BusID translation maps a PCI address `BB:DD.F` on the first
NVIDIA VGA/3D line of the enumeration output to `PCI:<bus>:<device>:<function>`,
with bus and device parsed as hexadecimal, the function parsed as decimal,
and all three rendered back in decimal; in particular `01:00.0` maps to
`PCI:1:0:0`. -/
theorem C5_busid_translation :
    ((get_nvidia_busid (some lspciSample)).1 = some "PCI:1:0:0".toList) ∧
    (∀ (out line : List Char) (pre post : List (List Char)) (b d f tail : List Char)
        (vb vd vf : Nat),
      pyLines out = pre ++ line :: post →
      (∀ l ∈ pre, nvidiaLinePred l = false) →
      nvidiaLinePred line = true →
      line = (b ++ ':' :: (d ++ '.' :: f)) ++ ' ' :: tail →
      parseHex b = some vb → parseHex d = some vd → parseDec f = some vf →
      (get_nvidia_busid (some out)).1 =
        some ("PCI:".toList ++ natToDec vb ++ ':' :: (natToDec vd ++ ':' :: natToDec vf))) := by
  constructor
  · decide
  · intro out line pre post b d f tail vb vd vf hsplit hpre hline hlineeq hb hd hf
    rw [get_nvidia_busid_fst hsplit hpre hline, hlineeq]
    exact parseBusId_eval hb hd hf

theorem C5_witness :
    (get_nvidia_busid (some lspciSample)).1 =
      some ("PCI:".toList ++ natToDec 1 ++ ':' :: (natToDec 0 ++ ':' :: natToDec 0)) :=
  C5_busid_translation.2 lspciSample
    "01:00.0 VGA compatible controller [0300]: NVIDIA Corporation TU117M".toList
    ["00:1f.3 Audio device [0403]: Intel Corporation".toList] []
    "01".toList "00".toList "0".toList
    "VGA compatible controller [0300]: NVIDIA Corporation TU117M".toList
    1 0 0 (by decide) (by decide) (by decide) (by decide) (by decide) (by decide) (by decide)

/-- C6: when no line of the enumeration output matches the NVIDIA VGA/3D
predicate, the nvidia enable transition exits with status 1 and leaves the
output-class configuration file exactly as it was (in particular it does
not create it). -/
theorem C6_enable_without_detection (oracle : List (List Char) → Option Nat)
    (out : List Char) (fs : NvFS)
    (h : ∀ l ∈ pyLines out, nvidiaLinePred l = false) :
    (switch_to_nvidia oracle (some out) fs).exitCode = 1 ∧
    (switch_to_nvidia oracle (some out) fs).fs.nvidiaConf = fs.nvidiaConf := by
  have hfind : (pyLines out).find? nvidiaLinePred = none :=
    List.find?_eq_none.mpr fun x hx => by simp [h x hx]
  have hdet : get_nvidia_busid (some out) = (none, false) := by
    simp [get_nvidia_busid, hfind]
  by_cases hu : fs.udevRules.isSome <;> simp [switch_to_nvidia, hdet, hu]

theorem C6_witness :
    (switch_to_nvidia (fun _ => none)
        (some "00:02.0 VGA compatible controller: Intel\n".toList)
        ⟨none, none, none, none, none⟩).exitCode = 1 ∧
    (switch_to_nvidia (fun _ => none)
        (some "00:02.0 VGA compatible controller: Intel\n".toList)
        ⟨none, none, none, none, none⟩).fs.nvidiaConf = none :=
  C6_enable_without_detection (fun _ => none)
    "00:02.0 VGA compatible controller: Intel\n".toList
    ⟨none, none, none, none, none⟩ (by decide)

/-- C7: every command other than `status` (including unknown commands)
invoked without effective uid 0 changes no file, invokes no external
command, prints the root error, and exits with status 1. -/
theorem C7_privilege_gate (argv : List (List Char)) (euid : Nat)
    (oracle : List (List Char) → Option Nat) (lspci : Option (List Char)) (fs : NvFS)
    (hlen : 2 ≤ argv.length) (hcmd : pyLower (argv.getD 1 []) ≠ "status".toList)
    (heuid : euid ≠ 0) :
    nvMain argv euid oracle lspci fs =
      { fs := fs, msgs := [NvMsg.rootError], cmds := [], exitCode := 1 } := by
  simp only [nvMain]
  rw [if_neg (by omega), if_neg hcmd, if_pos heuid]

theorem C7_witness :
    nvMain ["nvidia.py".toList, "intel".toList] 1000 (fun _ => none) none
        ⟨none, none, none, none, none⟩ =
      { fs := ⟨none, none, none, none, none⟩, msgs := [NvMsg.rootError], cmds := [],
        exitCode := 1 } :=
  C7_privilege_gate ["nvidia.py".toList, "intel".toList] 1000 (fun _ => none) none
    ⟨none, none, none, none, none⟩ (by decide) (by decide) (by decide)

/-- C8: for either valid mode, a failing external settings-store command is
logged (with the triggering command and the captured return code of the
failed process), execution continues through all four invocations and the
file steps (the final file state equals the all-success one), and the
process exits with status 0 regardless of the oracle. -/
theorem C8_best_effort (prog : List Char) (oracle : List (List Char) → Option Nat)
    (fs : DpiFS) :
    ((highdpiMain [prog, "highdpi".toList] oracle fs).exitCode = 0 ∧
      (highdpiMain [prog, "highdpi".toList] oracle fs).cmds =
        [xfScale2, xfThemeX, xfCursor42, xfDpi95] ∧
      (highdpiMain [prog, "highdpi".toList] oracle fs).fs =
        (highdpiMain [prog, "highdpi".toList] (fun _ => none) fs).fs ∧
      (∀ cmd code, oracle cmd = some code →
        cmd ∈ (highdpiMain [prog, "highdpi".toList] oracle fs).cmds →
        DpiMsg.cmdFailed cmd code ∈ (highdpiMain [prog, "highdpi".toList] oracle fs).msgs)) ∧
    ((highdpiMain [prog, "normal".toList] oracle fs).exitCode = 0 ∧
      (highdpiMain [prog, "normal".toList] oracle fs).cmds =
        [xfScale1, xfThemeN, xfCursor24, xfDpi96] ∧
      (highdpiMain [prog, "normal".toList] oracle fs).fs =
        (highdpiMain [prog, "normal".toList] (fun _ => none) fs).fs ∧
      (∀ cmd code, oracle cmd = some code →
        cmd ∈ (highdpiMain [prog, "normal".toList] oracle fs).cmds →
        DpiMsg.cmdFailed cmd code ∈ (highdpiMain [prog, "normal".toList] oracle fs).msgs)) := by
  have hred : ∀ o : List (List Char) → Option Nat,
      highdpiMain [prog, "highdpi".toList] o fs = applyHighdpiMode o fs := fun o => rfl
  have hred2 : ∀ o : List (List Char) → Option Nat,
      highdpiMain [prog, "normal".toList] o fs = applyNormalMode o fs := fun o => rfl
  refine ⟨⟨by rw [hred]; rfl, by rw [hred]; rfl,
      by rw [hred oracle, hred fun _ => none]; rfl, ?_⟩,
    ⟨by rw [hred2]; rfl, by rw [hred2]; rfl,
      by rw [hred2 oracle, hred2 fun _ => none]; rfl, ?_⟩⟩
  · intro cmd code hfail hmem
    rw [hred] at hmem ⊢
    simp only [applyHighdpiMode] at hmem ⊢
    simp only [List.mem_cons, List.not_mem_nil, or_false] at hmem
    rcases hmem with rfl | rfl | rfl | rfl <;> simp [runCmdMsgs, hfail]
  · intro cmd code hfail hmem
    rw [hred2] at hmem ⊢
    simp only [applyNormalMode] at hmem ⊢
    simp only [List.mem_cons, List.not_mem_nil, or_false] at hmem
    rcases hmem with rfl | rfl | rfl | rfl <;> simp [runCmdMsgs, hfail]

theorem C8_witness :
    DpiMsg.cmdFailed xfScale2 2 ∈
      (highdpiMain [[], "highdpi".toList]
        (fun cmd => if cmd = xfScale2 then some 2 else none) ⟨none, none⟩).msgs ∧
    (highdpiMain [[], "highdpi".toList]
        (fun cmd => if cmd = xfScale2 then some 2 else none) ⟨none, none⟩).exitCode = 0 :=
  ⟨(C8_best_effort [] (fun cmd => if cmd = xfScale2 then some 2 else none)
      ⟨none, none⟩).1.2.2.2 xfScale2 2 (by decide) (by decide),
   (C8_best_effort [] (fun cmd => if cmd = xfScale2 then some 2 else none)
      ⟨none, none⟩).1.1⟩

/-- C9: requesting the intel profile with the power-down option installs
the device-removal rule file (with the vendor/class rule content), and a
following intel request without the option removes it, from every starting
filesystem state. -/
theorem C9_power_down_toggle (oracle : List (List Char) → Option Nat) (fs : NvFS) :
    (switch_to_intel oracle true fs).fs.udevRules = some udevRulesContent ∧
    (switch_to_intel oracle false (switch_to_intel oracle true fs).fs).fs.udevRules = none :=
  ⟨rfl, rfl⟩

/-- C10: when the power-down rules file exists and BusID detection then
fails, the nvidia enable transition exits with status 1 having already
deleted the rules file and invoked the udev reload before running the
enumeration command — the failed transition is not atomic with respect to
the power-down sub-profile. -/
theorem C10_enable_removes_rules_before_detection (oracle : List (List Char) → Option Nat)
    (lspci : Option (List Char)) (fs : NvFS) (u : List Char)
    (hu : fs.udevRules = some u) (hdet : (get_nvidia_busid lspci).1 = none) :
    (switch_to_nvidia oracle lspci fs).exitCode = 1 ∧
    (switch_to_nvidia oracle lspci fs).fs.udevRules = none ∧
    (switch_to_nvidia oracle lspci fs).cmds = [udevadmReloadCmd, lspciCmd] := by
  have hus : fs.udevRules.isSome = true := by rw [hu]; rfl
  rcases hget : get_nvidia_busid lspci with ⟨o, w⟩
  rw [hget] at hdet
  simp only at hdet
  subst hdet
  simp [switch_to_nvidia, hget, hus]

theorem C10_witness :
    (switch_to_nvidia (fun _ => none) (some []) ⟨none, none, none, none, some []⟩).exitCode = 1 ∧
    (switch_to_nvidia (fun _ => none) (some [])
        ⟨none, none, none, none, some []⟩).fs.udevRules = none ∧
    (switch_to_nvidia (fun _ => none) (some [])
        ⟨none, none, none, none, some []⟩).cmds = [udevadmReloadCmd, lspciCmd] :=
  C10_enable_removes_rules_before_detection (fun _ => none) (some [])
    ⟨none, none, none, none, some []⟩ [] rfl (by decide)
